import Mathlib

/-!
Verification of the go-script interpreter core (lexer, Pratt parser, AST,
tree-walking evaluator with a parent-linked environment chain).

The embedding below is a direct functional translation of the Go sources:

  * token constants and the keyword table (`token` package),
  * the scanner (`lexer/lexer.go`),
  * the AST node types (`ast` package),
  * the Pratt parser (`parser/parser.go`),
  * the evaluator and environment (`evaluator/array.go` main section,
    `evaluator/environment.go`, `evaluator/arrays.go`).

Modelling choices, recorded once here:

  * Go float64 numbers are modelled as exact fractions (the `Q` type
    below).  Every numeric computation appearing in a theorem below stays
    within the integer range where float64 arithmetic is exact.
  * Go maps (environment stores, object values, object-literal pair maps)
    are modelled as association lists with update-in-place-or-append
    semantics; map iteration order, which Go randomises, is fixed to
    insertion order.  No theorem below depends on an iteration order.
  * Mutable state (the parent-linked environment chain, shared between
    closures) is modelled as a heap: a list of environment records indexed
    by allocation order; closures store the index of their defining
    environment, exactly as the Go closures store a pointer.
  * Go's unbounded recursion and `while` loops are modelled with a fuel
    parameter; exhausted fuel yields `none`.  `none` never means an error:
    the interpreter has no failure channel.
  * `fmt.Sscanf(v, "%f", &num)` in `toFloat` and `strconv.ParseFloat` in
    `parseNumberLiteral` are modelled for the decimal forms without
    exponents; the scanner cannot produce exponent forms and no theorem
    depends on them.
  * Native builtins (`print`, `fetch`, the JSON namespace) perform I/O and
    are external collaborators of the core; calling one is modelled by its
    returned value shape only (print returns the absent value; fetch's
    network result is modelled by its error-object shape).  No theorem
    below calls a builtin.
  * On a parse error Go can append a typed-nil statement to a node list,
    whose later evaluation would dereference nil; the caller contract
    forbids evaluating a tree produced alongside errors.  The model makes
    sub-parser failure explicit (`Option`) and skips failed statements;
    the two agree on every program that parses without errors, and every
    program evaluated below parses without errors.
-/

set_option maxRecDepth 40000

namespace GoScript

/-- Token kinds, one per constant of the Go `token` package. -/
inductive TokType where
  | eof | illegal
  | identT | numberT | stringT
  | assignT | plusT | minusT | starT | slashT | bangT | dotT
  | eqT | neqT | ltT | gtT | lteT | gteT
  | lparenT | rparenT | lbraceT | rbraceT | commaT | semicolonT | colonT
  | kwVar | kwLet | kwFunc | kwIf | kwElse | kwWhile | kwReturn | kwTrue | kwFalse
deriving DecidableEq, Repr

/-- The string value of each Go `token.Type` constant (Go token types are strings). -/
def ttStr : TokType → String
  | .eof => "EOF" | .illegal => "ILLEGAL"
  | .identT => "IDENT" | .numberT => "NUMBER" | .stringT => "STRING"
  | .assignT => "=" | .plusT => "+" | .minusT => "-" | .starT => "*"
  | .slashT => "/" | .bangT => "!" | .dotT => "."
  | .eqT => "==" | .neqT => "!=" | .ltT => "<" | .gtT => ">" | .lteT => "<=" | .gteT => ">="
  | .lparenT => "(" | .rparenT => ")" | .lbraceT => "\x7b" | .rbraceT => "\x7d"
  | .commaT => "," | .semicolonT => ";" | .colonT => ":"
  | .kwVar => "var" | .kwLet => "let" | .kwFunc => "function" | .kwIf => "if"
  | .kwElse => "else" | .kwWhile => "while" | .kwReturn => "return"
  | .kwTrue => "true" | .kwFalse => "false"

/-- A token: a kind plus its literal text (Go `token.Token`). -/
structure Token where
  type : TokType
  literal : String
deriving DecidableEq, Repr

def eofToken : Token := ⟨.eof, ""⟩

/-- `token.LookupIdent`: keyword table lookup, defaulting to a plain identifier. -/
def lookupIdent (s : String) : TokType :=
  if s = "var" then .kwVar
  else if s = "let" then .kwLet
  else if s = "function" then .kwFunc
  else if s = "if" then .kwIf
  else if s = "else" then .kwElse
  else if s = "while" then .kwWhile
  else if s = "return" then .kwReturn
  else if s = "true" then .kwTrue
  else if s = "false" then .kwFalse
  else .identT

/-- `lexer.isLetter`: letters or underscore.  (Go applies `unicode.IsLetter`
to single bytes; all source programs considered here are ASCII.) -/
def isLetterC (c : Char) : Bool := c.isAlpha || c = '_'

/-- `lexer.isDigit`. -/
def isDigitC (c : Char) : Bool := c.isDigit

/-- `lexer.skipWhitespace`. -/
def skipWs : List Char → List Char
  | [] => []
  | c :: cs => if c = ' ' || c = '\t' || c = '\n' || c = '\r' then skipWs cs else c :: cs

/-- Greedy span of characters satisfying `p` (used by `readIdentifier` and
`readNumber`, which scan greedily from the current position). -/
def spanP (p : Char → Bool) : List Char → (List Char × List Char)
  | [] => ([], [])
  | c :: cs =>
    if p c then
      let r := spanP p cs
      (c :: r.1, r.2)
    else ([], c :: cs)

/-- `lexer.readString`: characters up to the closing quote (consumed) or end
of input; no escape processing. -/
def readStr : List Char → (List Char × List Char)
  | [] => ([], [])
  | c :: cs =>
    if c = '"' then ([], cs)
    else
      let r := readStr cs
      (c :: r.1, r.2)

/-- `lexer.skipComment`: drop characters up to (not including) the newline. -/
def dropComment (cs : List Char) : List Char := cs.dropWhile (fun c => !(c = '\n'))

/-- `lexer.NextToken` on the remaining input; returns the token and the rest.
The fuel only feeds the self-call that skips a line comment. -/
def nextTok : Nat → List Char → (Token × List Char)
  | 0, cs => (eofToken, cs)
  | fuel+1, input =>
    match skipWs input with
    | [] => (eofToken, [])
    | c :: rest =>
      if c = '=' then
        match rest with
        | '=' :: rest2 => (⟨.eqT, "=="⟩, rest2)
        | _ => (⟨.assignT, "="⟩, rest)
      else if c = '!' then
        match rest with
        | '=' :: rest2 => (⟨.neqT, "!="⟩, rest2)
        | _ => (⟨.bangT, "!"⟩, rest)
      else if c = '<' then
        match rest with
        | '=' :: rest2 => (⟨.lteT, "<="⟩, rest2)
        | _ => (⟨.ltT, "<"⟩, rest)
      else if c = '>' then
        match rest with
        | '=' :: rest2 => (⟨.gteT, ">="⟩, rest2)
        | _ => (⟨.gtT, ">"⟩, rest)
      else if c = '+' then (⟨.plusT, "+"⟩, rest)
      else if c = '-' then (⟨.minusT, "-"⟩, rest)
      else if c = '*' then (⟨.starT, "*"⟩, rest)
      else if c = '/' then
        match rest with
        | '/' :: rest2 => nextTok fuel (dropComment rest2)
        | _ => (⟨.slashT, "/"⟩, rest)
      else if c = '(' then (⟨.lparenT, "("⟩, rest)
      else if c = ')' then (⟨.rparenT, ")"⟩, rest)
      else if c = '{' then (⟨.lbraceT, "\x7b"⟩, rest)
      else if c = '}' then (⟨.rbraceT, "\x7d"⟩, rest)
      else if c = ',' then (⟨.commaT, ","⟩, rest)
      else if c = ';' then (⟨.semicolonT, ";"⟩, rest)
      else if c = ':' then (⟨.colonT, ":"⟩, rest)
      else if c = '"' then
        let r := readStr rest
        (⟨.stringT, String.mk r.1⟩, r.2)
      else if isLetterC c then
        let r := spanP (fun d => isLetterC d || isDigitC d) (c :: rest)
        let lit := String.mk r.1
        (⟨lookupIdent lit, lit⟩, r.2)
      else if isDigitC c then
        let r := spanP (fun d => isDigitC d || d = '.') (c :: rest)
        (⟨.numberT, String.mk r.1⟩, r.2)
      else (⟨.illegal, String.mk [c]⟩, rest)

/-- Run the scanner to completion: the token sequence up to (excluding) EOF. -/
def lexAll : Nat → List Char → List Token
  | 0, _ => []
  | fuel+1, cs =>
    let r := nextTok (cs.length + 1) cs
    if r.1.type = .eof then [] else r.1 :: lexAll fuel r.2

/-- Tokenize a whole source string. -/
def tokenize (s : String) : List Token := lexAll (s.length + 1) s.data

/-!  Numbers.  The language's sole numeric type is float64; it is modelled
by an exact fraction `Q` (an integer numerator over a natural denominator,
not kept in lowest terms).  Every arithmetic operation computes the exact
rational value, and every observation of a number — equality, ordering,
truthiness, the zero test of the division guard, printing — compares
values, not representations (cross-multiplication).  Every numeric
computation appearing in a theorem below stays within the integer range
where float64 arithmetic is exact, so the exact-fraction model and float64
agree on it. -/

structure Q where
  num : Int
  den : Nat
deriving Repr, DecidableEq

/-- The fraction n/1. -/
def Q.ofInt (n : Int) : Q := ⟨n, 1⟩

/-- The fraction n/1. -/
def Q.ofNat (n : Nat) : Q := ⟨Int.ofNat n, 1⟩

def Q.add (a b : Q) : Q := ⟨a.num * b.den + b.num * a.den, a.den * b.den⟩

def Q.sub (a b : Q) : Q := ⟨a.num * b.den - b.num * a.den, a.den * b.den⟩

def Q.mul (a b : Q) : Q := ⟨a.num * b.num, a.den * b.den⟩

def Q.neg (a : Q) : Q := ⟨-a.num, a.den⟩

/-- Exact division; the evaluator's division guard keeps the divisor's
value nonzero, and the sign moves to the numerator so the denominator stays
a natural number. -/
def Q.div (a b : Q) : Q :=
  if 0 ≤ b.num then ⟨a.num * b.den, a.den * b.num.toNat⟩
  else ⟨-(a.num * b.den), a.den * (-b.num).toNat⟩

/-- Value equality (float64 `==`). -/
def Q.beq (a b : Q) : Bool := a.num * b.den == b.num * a.den

/-- Value order (float64 `<`). -/
def Q.blt (a b : Q) : Bool := decide (a.num * (b.den : Int) < b.num * (a.den : Int))

/-- Value order (float64 `<=`). -/
def Q.ble (a b : Q) : Bool := decide (a.num * (b.den : Int) ≤ b.num * (a.den : Int))

/-- Go's `int(x)` conversion from float64: truncation toward zero. -/
def Q.truncToInt (x : Q) : Int := Int.tdiv x.num (Int.ofNat x.den)

/-!  The AST (`ast` package).  Child fields typed `ast.Expression` or
`ast.Statement` in Go can be nil after a parse error; those become `Option`
here.  `FunctionLiteral.Body`, `IfStatement.Consequence` and
`WhileStatement.Body` are always non-nil block statements when the node is
built, so they are carried as the block's statement list; evaluation routes
them through the block-statement rule exactly as Go's `Eval` dispatch does. -/

mutual

inductive Expr where
  | ident (name : String)
  | numberLit (value : Q)
  | stringLit (value : String)
  | booleanLit (value : Bool)
  | prefixExpr (op : String) (right : Option Expr)
  | infixExpr (left : Option Expr) (op : String) (right : Option Expr)
  | assignExpr (name : String) (value : Option Expr)
  | functionLit (params : List String) (body : List Stmt)
  | callExpr (fn : Option Expr) (args : List (Option Expr))
  | objectLit (pairs : List (String × Option Expr))
  | arrayLit (elems : List (Option Expr))
  | propertyAccess (obj : Option Expr) (prop : String)
  | indexExpr (left : Option Expr) (idx : Option Expr)
deriving Repr

inductive Stmt where
  | varStmt (name : String) (value : Option Expr)
  | returnStmt (value : Option Expr)
  | exprStmt (e : Option Expr)
  | blockStmt (stmts : List Stmt)
  | ifStmt (cond : Option Expr) (cons : List Stmt) (alt : Option Stmt)
  | whileStmt (cond : Option Expr) (body : List Stmt)
deriving Repr

end

/-- Numeric value of a list of decimal digit characters. -/
def digitsVal (ds : List Char) : Nat := ds.foldl (fun a c => a * 10 + (c.toNat - 48)) 0

/-- Model of `strconv.ParseFloat` restricted to the literal shapes the
scanner can emit (digits and dots): at most one dot, at least one digit.
Signs, exponents, hex and inf/nan forms cannot reach the parser here. -/
def parseFloatLit (s : String) : Option Q :=
  let cs := s.data
  if cs.all (fun c => isDigitC c || c = '.') then
    let intPart := cs.takeWhile (fun c => isDigitC c)
    let rest := cs.dropWhile (fun c => isDigitC c)
    match rest with
    | [] => if intPart.isEmpty then none else some (Q.ofNat (digitsVal intPart))
    | '.' :: frac =>
      if frac.all (fun c => isDigitC c) && !(intPart.isEmpty && frac.isEmpty) then
        some ⟨Int.ofNat (digitsVal intPart * 10 ^ frac.length + digitsVal frac),
          10 ^ frac.length⟩
      else none
    | _ => none
  else none

/-!  The Pratt parser (`parser/parser.go`).  The mutually recursive Go
methods become one fuel-indexed function `parseCore` over a task type, so
that every parse computes by kernel reduction.  The parser state carries the
current token, the one-token lookahead, the not-yet-pulled tokens and the
accumulated error list, exactly the fields of Go's `Parser` (the lexer being
pure, pulling tokens on demand equals pre-tokenizing). -/

/-- Go's precedence constants (iota order): LOWEST. -/
def precLowest : Nat := 1

/-- ASSIGN precedence. -/
def precAssign : Nat := 2

/-- EQUALS precedence. -/
def precEquals : Nat := 3

/-- LESSGREATER precedence. -/
def precLessGreater : Nat := 4

/-- SUM precedence. -/
def precSum : Nat := 5

/-- PRODUCT precedence. -/
def precProduct : Nat := 6

/-- PREFIX precedence (unary operators). -/
def precUnary : Nat := 7

/-- CALL precedence. -/
def precCall : Nat := 8

/-- The `precedences` table with the `LOWEST` default of `getPrecedence`. -/
def getPrec : TokType → Nat
  | .assignT => precAssign
  | .eqT => precEquals
  | .neqT => precEquals
  | .ltT => precLessGreater
  | .gtT => precLessGreater
  | .lteT => precLessGreater
  | .gteT => precLessGreater
  | .plusT => precSum
  | .minusT => precSum
  | .slashT => precProduct
  | .starT => precProduct
  | .lparenT => precCall
  | .dotT => precCall
  | _ => precLowest

/-- Parser state: current token, lookahead, remaining tokens, error list. -/
structure PState where
  cur : Token
  peek : Token
  rest : List Token
  errors : List String
deriving Repr

/-- `Parser.nextToken`: shift the lookahead window; past the end the scanner
keeps answering EOF. -/
def pAdvance (p : PState) : PState :=
  match p.rest with
  | [] => { p with cur := p.peek, peek := eofToken }
  | t :: ts => { cur := p.peek, peek := t, rest := ts, errors := p.errors }

/-- `parser.New`: prime current and peek with two advances. -/
def pInit (toks : List Token) : PState :=
  pAdvance (pAdvance { cur := eofToken, peek := eofToken, rest := toks, errors := [] })

/-- `Parser.expectPeek`: advance on match, record a diagnostic otherwise. -/
def pExpectPeek (t : TokType) (p : PState) : Bool × PState :=
  if p.peek.type = t then (true, pAdvance p)
  else (false, { p with errors := p.errors ++
    ["expected next token to be " ++ ttStr t ++ ", got " ++ ttStr p.peek.type ++ " instead"] })

/-- Association-list upsert: the model of writing to a Go map key. -/
def upsertAssoc {α : Type} : List (String × α) → String → α → List (String × α)
  | [], k, v => [(k, v)]
  | (k0, v0) :: rest, k, v =>
    if k0 = k then (k, v) :: rest else (k0, v0) :: upsertAssoc rest k v

/-- Parse results: one variant per result shape of the Go parse methods. -/
inductive PRes where
  | stmtR (s : Option Stmt)
  | exprR (e : Option Expr)
  | stmtsR (l : List Stmt)
  | paramsR (l : Option (List String))
  | argsR (l : Option (List (Option Expr)))
  | pairsR (l : Option (List (String × Option Expr)))
deriving Repr

def PRes.asStmt : PRes → Option Stmt
  | .stmtR s => s
  | _ => none

def PRes.asExpr : PRes → Option Expr
  | .exprR e => e
  | _ => none

def PRes.asBlock : PRes → Option (List Stmt)
  | .stmtR (some (.blockStmt l)) => some l
  | _ => none

def PRes.asParams : PRes → Option (List String)
  | .paramsR l => l
  | _ => none

def PRes.asArgs : PRes → Option (List (Option Expr))
  | .argsR l => l
  | _ => none

def PRes.asPairs : PRes → Option (List (String × Option Expr))
  | .pairsR l => l
  | _ => none

/-- Parse tasks: one per Go parse method, plus its internal loops. -/
inductive PTask where
  | progLoopP (acc : List Stmt)
  | stmtP
  | varStmtP
  | returnStmtP
  | ifStmtP
  | whileStmtP
  | blockStmtP
  | blockLoopP (acc : List Stmt)
  | exprStmtP
  | exprP (prec : Nat)
  | infixLoopP (prec : Nat) (left : Option Expr)
  | paramsP
  | paramsLoopP (acc : List String)
  | argsP
  | argsLoopP (acc : List (Option Expr))
  | objPairsP (acc : List (String × Option Expr))
deriving Repr

/-- The parser.  Each case is the direct translation of the corresponding Go
method; the fuel only forces termination and is irrelevant on every program
parsed in this file.  Where a Go method returns a nil node after recording an
error, the result here is `none`. -/
def parseCore : Nat → PTask → PState → (PRes × PState)
  | 0, _, p => (.stmtR none, p)
  | fuel+1, task, p =>
    match task with
    | .progLoopP acc =>
      if p.cur.type = .eof then (.stmtsR acc, p)
      else
        let r := parseCore fuel .stmtP p
        let acc2 := match r.1.asStmt with
          | some s => acc ++ [s]
          | none => acc
        parseCore fuel (.progLoopP acc2) (pAdvance r.2)
    | .stmtP =>
      match p.cur.type with
      | .kwVar => parseCore fuel .varStmtP p
      | .kwLet => parseCore fuel .varStmtP p
      | .kwReturn => parseCore fuel .returnStmtP p
      | .kwIf => parseCore fuel .ifStmtP p
      | .kwWhile => parseCore fuel .whileStmtP p
      | .lbraceT => parseCore fuel .blockStmtP p
      | _ => parseCore fuel .exprStmtP p
    | .varStmtP =>
      let r := pExpectPeek .identT p
      if !r.1 then (.stmtR none, r.2)
      else
        let p1 := r.2
        let name := p1.cur.literal
        if p1.peek.type = .assignT then
          let p2 := pAdvance (pAdvance p1)
          let re := parseCore fuel (.exprP precLowest) p2
          let p3 := re.2
          let p4 := if p3.peek.type = .semicolonT then pAdvance p3 else p3
          (.stmtR (some (.varStmt name re.1.asExpr)), p4)
        else
          let p4 := if p1.peek.type = .semicolonT then pAdvance p1 else p1
          (.stmtR (some (.varStmt name none)), p4)
    | .returnStmtP =>
      let p1 := pAdvance p
      let re := parseCore fuel (.exprP precLowest) p1
      let p2 := re.2
      let p3 := if p2.peek.type = .semicolonT then pAdvance p2 else p2
      (.stmtR (some (.returnStmt re.1.asExpr)), p3)
    | .ifStmtP =>
      let r1 := pExpectPeek .lparenT p
      if !r1.1 then (.stmtR none, r1.2)
      else
        let p2 := pAdvance r1.2
        let rc := parseCore fuel (.exprP precLowest) p2
        let r2 := pExpectPeek .rparenT rc.2
        if !r2.1 then (.stmtR none, r2.2)
        else
          let r3 := pExpectPeek .lbraceT r2.2
          if !r3.1 then (.stmtR none, r3.2)
          else
            let rb := parseCore fuel .blockStmtP r3.2
            match rb.1.asBlock with
            | none => (.stmtR none, rb.2)
            | some consL =>
              let p6 := rb.2
              if p6.peek.type = .kwElse then
                let p7 := pAdvance (pAdvance p6)
                if p7.cur.type = .kwIf then
                  let ra := parseCore fuel .ifStmtP p7
                  (.stmtR (some (.ifStmt rc.1.asExpr consL ra.1.asStmt)), ra.2)
                else if p7.cur.type = .lbraceT then
                  let ra := parseCore fuel .blockStmtP p7
                  (.stmtR (some (.ifStmt rc.1.asExpr consL ra.1.asStmt)), ra.2)
                else (.stmtR (some (.ifStmt rc.1.asExpr consL none)), p7)
              else (.stmtR (some (.ifStmt rc.1.asExpr consL none)), p6)
    | .whileStmtP =>
      let r1 := pExpectPeek .lparenT p
      if !r1.1 then (.stmtR none, r1.2)
      else
        let p2 := pAdvance r1.2
        let rc := parseCore fuel (.exprP precLowest) p2
        let r2 := pExpectPeek .rparenT rc.2
        if !r2.1 then (.stmtR none, r2.2)
        else
          let r3 := pExpectPeek .lbraceT r2.2
          if !r3.1 then (.stmtR none, r3.2)
          else
            let rb := parseCore fuel .blockStmtP r3.2
            match rb.1.asBlock with
            | none => (.stmtR none, rb.2)
            | some bodyL => (.stmtR (some (.whileStmt rc.1.asExpr bodyL)), rb.2)
    | .blockStmtP => parseCore fuel (.blockLoopP []) (pAdvance p)
    | .blockLoopP acc =>
      if p.cur.type = .rbraceT || p.cur.type = .eof then (.stmtR (some (.blockStmt acc)), p)
      else
        let r := parseCore fuel .stmtP p
        let acc2 := match r.1.asStmt with
          | some s => acc ++ [s]
          | none => acc
        parseCore fuel (.blockLoopP acc2) (pAdvance r.2)
    | .exprStmtP =>
      let re := parseCore fuel (.exprP precLowest) p
      let p2 := re.2
      let p3 := if p2.peek.type = .semicolonT then pAdvance p2 else p2
      (.stmtR (some (.exprStmt re.1.asExpr)), p3)
    | .exprP prec =>
      match p.cur.type with
      | .identT => parseCore fuel (.infixLoopP prec (some (.ident p.cur.literal))) p
      | .numberT =>
        match parseFloatLit p.cur.literal with
        | some v => parseCore fuel (.infixLoopP prec (some (.numberLit v))) p
        | none =>
          let p1 := { p with errors := p.errors ++
            ["could not parse \"" ++ p.cur.literal ++ "\" as number"] }
          parseCore fuel (.infixLoopP prec none) p1
      | .stringT => parseCore fuel (.infixLoopP prec (some (.stringLit p.cur.literal))) p
      | .kwTrue => parseCore fuel (.infixLoopP prec (some (.booleanLit true))) p
      | .kwFalse => parseCore fuel (.infixLoopP prec (some (.booleanLit false))) p
      | .bangT =>
        let op := p.cur.literal
        let p1 := pAdvance p
        let rr := parseCore fuel (.exprP precUnary) p1
        parseCore fuel (.infixLoopP prec (some (.prefixExpr op rr.1.asExpr))) rr.2
      | .minusT =>
        let op := p.cur.literal
        let p1 := pAdvance p
        let rr := parseCore fuel (.exprP precUnary) p1
        parseCore fuel (.infixLoopP prec (some (.prefixExpr op rr.1.asExpr))) rr.2
      | .lparenT =>
        let p1 := pAdvance p
        let re := parseCore fuel (.exprP precLowest) p1
        let r2 := pExpectPeek .rparenT re.2
        let left := if r2.1 then re.1.asExpr else none
        parseCore fuel (.infixLoopP prec left) r2.2
      | .kwFunc =>
        let r1 := pExpectPeek .lparenT p
        if !r1.1 then parseCore fuel (.infixLoopP prec none) r1.2
        else
          let rp := parseCore fuel .paramsP r1.2
          let r2 := pExpectPeek .lbraceT rp.2
          if !r2.1 then parseCore fuel (.infixLoopP prec none) r2.2
          else
            let rb := parseCore fuel .blockStmtP r2.2
            let left := match rb.1.asBlock with
              | some body => some (Expr.functionLit ((rp.1.asParams).getD []) body)
              | none => none
            parseCore fuel (.infixLoopP prec left) rb.2
      | .lbraceT =>
        let rps := parseCore fuel (.objPairsP []) (pAdvance p)
        let left := match rps.1.asPairs with
          | some fs => some (Expr.objectLit fs)
          | none => none
        parseCore fuel (.infixLoopP prec left) rps.2
      | _ =>
        (.exprR none, { p with errors := p.errors ++
          ["no prefix parse function for " ++ ttStr p.cur.type ++ " found"] })
    | .infixLoopP prec left =>
      if p.peek.type = .semicolonT then (.exprR left, p)
      else if prec < getPrec p.peek.type then
        match p.peek.type with
        | .plusT | .minusT | .starT | .slashT
        | .eqT | .neqT | .ltT | .gtT | .lteT | .gteT =>
          let p1 := pAdvance p
          let op := p1.cur.literal
          let opPrec := getPrec p1.cur.type
          let p2 := pAdvance p1
          let rr := parseCore fuel (.exprP opPrec) p2
          parseCore fuel (.infixLoopP prec (some (.infixExpr left op rr.1.asExpr))) rr.2
        | .lparenT =>
          let p1 := pAdvance p
          let ra := parseCore fuel .argsP p1
          parseCore fuel (.infixLoopP prec (some (.callExpr left ((ra.1.asArgs).getD [])))) ra.2
        | .dotT =>
          let p1 := pAdvance p
          let r2 := pExpectPeek .identT p1
          let left2 := if r2.1 then some (Expr.propertyAccess left r2.2.cur.literal) else none
          parseCore fuel (.infixLoopP prec left2) r2.2
        | .assignT =>
          let p1 := pAdvance p
          match left with
          | some (.ident n) =>
            let p2 := pAdvance p1
            let rv := parseCore fuel (.exprP precLowest) p2
            parseCore fuel (.infixLoopP prec (some (.assignExpr n rv.1.asExpr))) rv.2
          | _ =>
            let p2 := { p1 with errors := p1.errors ++ ["invalid assignment target"] }
            parseCore fuel (.infixLoopP prec none) p2
        | _ => (.exprR left, p)
      else (.exprR left, p)
    | .paramsP =>
      if p.peek.type = .rparenT then (.paramsR (some []), pAdvance p)
      else
        let p1 := pAdvance p
        parseCore fuel (.paramsLoopP [p1.cur.literal]) p1
    | .paramsLoopP acc =>
      if p.peek.type = .commaT then
        let p1 := pAdvance (pAdvance p)
        parseCore fuel (.paramsLoopP (acc ++ [p1.cur.literal])) p1
      else
        let r := pExpectPeek .rparenT p
        if r.1 then (.paramsR (some acc), r.2) else (.paramsR none, r.2)
    | .argsP =>
      if p.peek.type = .rparenT then (.argsR (some []), pAdvance p)
      else
        let p1 := pAdvance p
        let re := parseCore fuel (.exprP precLowest) p1
        parseCore fuel (.argsLoopP [re.1.asExpr]) re.2
    | .argsLoopP acc =>
      if p.peek.type = .commaT then
        let p1 := pAdvance (pAdvance p)
        let re := parseCore fuel (.exprP precLowest) p1
        parseCore fuel (.argsLoopP (acc ++ [re.1.asExpr])) re.2
      else
        let r := pExpectPeek .rparenT p
        if r.1 then (.argsR (some acc), r.2) else (.argsR none, r.2)
    | .objPairsP acc =>
      if p.cur.type = .rbraceT || p.cur.type = .eof then (.pairsR (some acc), p)
      else if p.cur.type = .identT || p.cur.type = .stringT then
        let key := p.cur.literal
        let r1 := pExpectPeek .colonT p
        if !r1.1 then (.pairsR none, r1.2)
        else
          let p2 := pAdvance r1.2
          let re := parseCore fuel (.exprP precLowest) p2
          let acc2 := upsertAssoc acc key re.1.asExpr
          let p3 := re.2
          if p3.peek.type = .commaT then
            parseCore fuel (.objPairsP acc2) (pAdvance (pAdvance p3))
          else if p3.peek.type = .rbraceT then (.pairsR (some acc2), pAdvance p3)
          else parseCore fuel (.objPairsP acc2) p3
      else (.pairsR none, p)

/-- `Parser.ParseProgram` plus `Parser.Errors`: the statement list and the
diagnostics of one parse, at a fuel ample for every program in this file. -/
def parseProgram (toks : List Token) : List Stmt × List String :=
  match parseCore 1000 (.progLoopP []) (pInit toks) with
  | (.stmtsR l, q) => (l, q.errors)
  | (_, q) => ([], q.errors)

/-!  Runtime values (`internal` package) and the environment heap
(`evaluator/environment.go`).  `Value` is Go's dynamically tagged
`interface\x7b\x7d` union; `ret` is the internal `ReturnValue` wrapper; a
`closure` stores the heap index of its defining environment, the model of
the Go pointer `Function.Env`. -/

inductive Value where
  | null
  | num (x : Q)
  | str (s : String)
  | bool (b : Bool)
  | obj (fields : List (String × Value))
  | arr (elems : List Value)
  | closure (params : List String) (body : List Stmt) (envIdx : Nat)
  | builtinV (name : String)
  | ret (v : Value)
deriving Repr

/-- One environment: its store and the optional parent (`outer`) index. -/
structure EnvRec where
  store : List (String × Value)
  outer : Option Nat
deriving Repr

/-- The heap of environments; indices are allocation order, so an
environment's parent always has a smaller index. -/
structure State where
  envs : List EnvRec
deriving Repr

/-- First-match association-list lookup: the model of reading a Go map key
(`val, ok := store[name]`). -/
def lookupStore : List (String × Value) → String → Option Value
  | [], _ => none
  | (k, v) :: rest, name => if k = name then some v else lookupStore rest name

/-- `environment.New(nil)`: a single empty global environment. -/
def initialState : State := { envs := [{ store := [], outer := none }] }

/-- Allocate a child environment (`New(outer)`): returns its index. -/
def allocEnv (st : State) (outer : Option Nat) : Nat × State :=
  (st.envs.length, { envs := st.envs ++ [{ store := [], outer := outer }] })

/-- `Environment.Set`: write into the store of environment `i` only. -/
def envSet (st : State) (i : Nat) (name : String) (v : Value) : State :=
  match st.envs.get? i with
  | none => st
  | some e => { envs := st.envs.set i { e with store := upsertAssoc e.store name v } }

/-- `Environment.Get`, walking the parent chain; the fuel bounds the chain
length (a parent's index is always smaller, so `envs.length` steps reach the
root of any state built by the interpreter). -/
def envGetAux (st : State) : Nat → Nat → String → Option Value
  | 0, _, _ => none
  | fuel+1, i, name =>
    match st.envs.get? i with
    | none => none
    | some e =>
      match lookupStore e.store name with
      | some v => some v
      | none =>
        match e.outer with
        | some j => envGetAux st fuel j name
        | none => none

/-- `Environment.Get` at ample fuel. -/
def envGet (st : State) (i : Nat) (name : String) : Option Value :=
  envGetAux st (st.envs.length + 1) i name

/-- `Environment.Update`: mutate the binding in the nearest enclosing scope
that has one, else create it in the current scope.  Mirrors the Go method
line by line: own store first, then the parent chain guarded by a Get. -/
def envUpdateAux (st : State) : Nat → Nat → String → Value → State
  | 0, _, _, _ => st
  | fuel+1, i, name, v =>
    match st.envs.get? i with
    | none => st
    | some e =>
      if (lookupStore e.store name).isSome then envSet st i name v
      else
        match e.outer with
        | some j =>
          if (envGet st j name).isSome then envUpdateAux st fuel j name v
          else envSet st i name v
        | none => envSet st i name v

/-- `Environment.Update` at ample fuel. -/
def envUpdate (st : State) (i : Nat) (name : String) (v : Value) : State :=
  envUpdateAux st (st.envs.length + 1) i name v

/-!  Value helpers of the evaluator (`isTruthy`, `toFloat`, `equals`,
`internal.ToString`). -/

/-- `isTruthy`: nil and false are falsy, zero is falsy, the empty string is
falsy, everything else (objects, arrays, functions) is truthy. -/
def isTruthy : Value → Bool
  | .null => false
  | .bool b => b
  | .num v => !(Q.beq v (Q.ofInt 0))
  | .str s => !(s == "")
  | _ => true

/-- Model of `fmt.Sscanf(v, "%f", &num)` as used by `toFloat` on strings:
read an optional sign and a decimal number from the front of the string; if
nothing numeric is there, `num` keeps its zero value.  Exponent forms are
not modelled; no theorem below depends on them. -/
def scanFloatPrefix (s : String) : Q :=
  let cs := s.data.dropWhile (fun c => c = ' ' || c = '\t' || c = '\n' || c = '\r')
  let signAndRest : Int × List Char :=
    match cs with
    | '-' :: rest => (-1, rest)
    | '+' :: rest => (1, rest)
    | _ => (1, cs)
  let ds := (signAndRest.2).takeWhile (fun c => isDigitC c)
  let afterInt := (signAndRest.2).dropWhile (fun c => isDigitC c)
  let frac : List Char :=
    match afterInt with
    | '.' :: rest => rest.takeWhile (fun c => isDigitC c)
    | _ => []
  if ds.isEmpty && frac.isEmpty then Q.ofInt 0
  else
    ⟨signAndRest.1 * Int.ofNat (digitsVal ds * 10 ^ frac.length + digitsVal frac),
      10 ^ frac.length⟩

/-- `toFloat`: numeric coercion of the binary operators.  nil is 0, booleans
are 1 or 0, strings are scanned, every other value (objects, arrays,
functions, the return wrapper) falls to the default 0. -/
def toFloat : Value → Q
  | .null => Q.ofInt 0
  | .num v => v
  | .bool b => if b then Q.ofInt 1 else Q.ofInt 0
  | .str s => scanFloatPrefix s
  | _ => Q.ofInt 0

/-- `equals`: value equality inside one variant for numbers, strings and
booleans; nil equals only nil; every other pairing (including two objects,
two arrays, or two functions) is false. -/
def equalsV : Value → Value → Bool
  | .null, .null => true
  | .null, _ => false
  | _, .null => false
  | .num a, .num b => Q.beq a b
  | .num _, _ => false
  | .str a, .str b => a == b
  | .str _, _ => false
  | .bool a, .bool b => a == b
  | .bool _, _ => false
  | _, _ => false

/-- Decimal rendering of a non-integer rational whose denominator divides a
power of ten: every number entered as a decimal literal has this form.  (A
float64 with a non-terminating shortest representation, e.g. the result of
10/3, prints differently in Go; no theorem below prints such a value.) -/
def decStr (x : Q) : String :=
  match (List.range 40).find? (fun k => (x.num * (10 : Int) ^ k) % (x.den : Int) == 0) with
  | some k =>
    let n := (x.num * (10 : Int) ^ k) / (x.den : Int)
    let sign := if n < 0 then "-" else ""
    let a := n.natAbs
    let ip := a / 10 ^ k
    let fp := a % 10 ^ k
    let fpStr := toString fp
    let pad := String.mk (List.replicate (k - fpStr.length) '0')
    sign ++ toString ip ++ "." ++ pad ++ fpStr
  | none => toString x.num ++ "/" ++ toString x.den

mutual

/-- `internal.ToString`: nil prints as "nil", integers without a decimal
point, booleans as words, objects brace-wrapped, arrays bracket-wrapped.
Functions and builtins fall to Go's default `%v` (an address-dependent
form), modelled by an opaque placeholder; no theorem prints one. -/
def toStringV : Value → String
  | .null => "nil"
  | .str s => s
  | .num x => if x.num % (x.den : Int) == 0 then toString (x.num / (x.den : Int)) else decStr x
  | .bool b => if b then "true" else "false"
  | .obj fs => "\x7b" ++ joinFields fs ++ "\x7d"
  | .arr es => "[" ++ joinElems es ++ "]"
  | .closure _ _ _ => "<function>"
  | .builtinV _ => "<builtin>"
  | .ret v => "&\x7b" ++ toStringV v ++ "\x7d"

/-- Comma-joined `key: value` renderings of object fields. -/
def joinFields : List (String × Value) → String
  | [] => ""
  | [(k, v)] => k ++ ": " ++ toStringV v
  | (k, v) :: rest => k ++ ": " ++ toStringV v ++ ", " ++ joinFields rest

/-- Comma-joined renderings of array elements. -/
def joinElems : List Value → String
  | [] => ""
  | [v] => toStringV v
  | v :: rest => toStringV v ++ ", " ++ joinElems rest

end

/-- `GetArrayProperty` of `evaluator/arrays.go`: plain arrays expose only
`length`; everything else is absent. -/
def getArrayProperty (elems : List Value) (property : String) : Value :=
  if property = "length" then .num (Q.ofNat elems.length) else .null

/-- `builtins.Get` membership: the registry holds `print` and `fetch`. -/
def builtinsGet (name : String) : Bool := name = "print" || name = "fetch"

/-- The value returned by a native builtin call.  `print` writes to stdout
and returns nil; `fetch` performs network I/O outside the core, so its
result is modelled by the error-object shape its error paths return.  No
theorem below calls a builtin. -/
def callBuiltinFn (name : String) (_args : List Value) : Value :=
  if name = "print" then .null
  else if name = "fetch" then .obj [("error", .str "network call not modelled")]
  else .null

/-- The operator dispatch of `evalInfixExpression`, applied to the two
already-evaluated operands: `+` special-cases strings to concatenation,
the numeric operators coerce through `toFloat`, division by a zero divisor
yields 0, equality goes through `equals`, and an unknown operator falls
through to nil. -/
def infixValue (left : Value) (op : String) (right : Value) : Value :=
  if op = "+" then
    match left with
    | .str ls => .str (ls ++ toStringV right)
    | _ =>
      match right with
      | .str rs => .str (toStringV left ++ rs)
      | _ => .num (Q.add (toFloat left) (toFloat right))
  else if op = "-" then .num (Q.sub (toFloat left) (toFloat right))
  else if op = "*" then .num (Q.mul (toFloat left) (toFloat right))
  else if op = "/" then
    let rn := toFloat right
    if Q.beq rn (Q.ofInt 0) then .num (Q.ofInt 0) else .num (Q.div (toFloat left) rn)
  else if op = "==" then .bool (equalsV left right)
  else if op = "!=" then .bool (!equalsV left right)
  else if op = "<" then .bool (Q.blt (toFloat left) (toFloat right))
  else if op = ">" then .bool (Q.blt (toFloat right) (toFloat left))
  else if op = "<=" then .bool (Q.ble (toFloat left) (toFloat right))
  else if op = ">=" then .bool (Q.ble (toFloat right) (toFloat left))
  else .null

/-- The operator dispatch of `evalPrefixExpression`, applied to the
already-evaluated operand: `!` negates truthiness; `-` negates a number and
sends every non-number to 0; an unknown operator falls through to nil. -/
def prefixValue (op : String) (right : Value) : Value :=
  if op = "!" then .bool (!isTruthy right)
  else if op = "-" then
    match right with
    | .num n => .num (Q.neg n)
    | _ => .num (Q.ofInt 0)
  else .null

/-- `bindParams`: bind parameters positionally in environment `i`;
unsupplied trailing parameters are bound to nil. -/
def bindParams (st : State) (i : Nat) : List String → List Value → State
  | [], _ => st
  | pname :: ps, [] => bindParams (envSet st i pname .null) i ps []
  | pname :: ps, a :: rest => bindParams (envSet st i pname a) i ps rest

/-!  The evaluator (`Eval` and the `eval*` functions of the main evaluator
file).  As with the parser, the mutually recursive Go functions become one
fuel-indexed function over a task type so that every evaluation computes by
kernel reduction.  A task is evaluated against an environment index and the
current heap. -/

/-- Evaluation tasks: AST dispatch plus the internal statement/argument
loops of `evalProgram`, `evalBlockStatement`, `evalWhileStatement`,
`evalCallExpression`, `evalObjectLiteral` and `evalArrayLiteral`. -/
inductive ETask where
  | exprT (e : Expr)
  | exprOT (e : Option Expr)
  | stmtT (s : Stmt)
  | progT (stmts : List Stmt) (prev : Value)
  | blockT (stmts : List Stmt) (prev : Value)
  | whileT (cond : Option Expr) (body : List Stmt) (prev : Value)
  | argsT (es : List (Option Expr))
  | pairsT (ps : List (String × Option Expr)) (acc : List (String × Value))
deriving Repr

/-- Evaluation results: a single value, an argument list, or nothing yet. -/
inductive ERes where
  | val (v : Value)
  | vals (vs : List Value)
deriving Repr

/-- The evaluator.  Each case is the direct translation of the
corresponding Go function; `none` means the fuel ran out (a Go execution
that is still running), never an error — the interpreter has no failure
channel.  `exprOT none` is Go's `Eval(nil)`, which returns nil. -/
def evalCore : Nat → ETask → Nat → State → Option (ERes × State)
  | 0, _, _, _ => none
  | fuel+1, task, env, st =>
    match task with
    | .exprOT none => some (.val .null, st)
    | .exprOT (some e) => evalCore fuel (.exprT e) env st
    | .exprT e =>
      match e with
      | .ident name =>
        match envGet st env name with
        | some v => some (.val v, st)
        | none => some (.val .null, st)
      | .numberLit v => some (.val (.num v), st)
      | .stringLit s => some (.val (.str s), st)
      | .booleanLit b => some (.val (.bool b), st)
      | .prefixExpr op r =>
        match evalCore fuel (.exprOT r) env st with
        | some (.val rv, st1) => some (.val (prefixValue op rv), st1)
        | _ => none
      | .infixExpr l op r =>
        match evalCore fuel (.exprOT l) env st with
        | some (.val lv, st1) =>
          match evalCore fuel (.exprOT r) env st1 with
          | some (.val rv, st2) => some (.val (infixValue lv op rv), st2)
          | _ => none
        | _ => none
      | .assignExpr name vO =>
        match evalCore fuel (.exprOT vO) env st with
        | some (.val v, st1) => some (.val v, envUpdate st1 env name v)
        | _ => none
      | .functionLit ps body => some (.val (.closure ps body env), st)
      | .callExpr fnO args =>
        let registry : Option String :=
          match fnO with
          | some (.ident n) => if builtinsGet n then some n else none
          | _ => none
        match registry with
        | some n =>
          match evalCore fuel (.argsT args) env st with
          | some (.vals vs, st1) => some (.val (callBuiltinFn n vs), st1)
          | _ => none
        | none =>
          match evalCore fuel (.exprOT fnO) env st with
          | some (.val fv, st1) =>
            match fv with
            | .builtinV n =>
              match evalCore fuel (.argsT args) env st1 with
              | some (.vals vs, st2) => some (.val (callBuiltinFn n vs), st2)
              | _ => none
            | .closure ps body cenv =>
              match evalCore fuel (.argsT args) env st1 with
              | some (.vals vs, st2) =>
                let a := allocEnv st2 (some cenv)
                let st3 := bindParams a.2 a.1 ps vs
                match evalCore fuel (.stmtT (.blockStmt body)) a.1 st3 with
                | some (.val rv, st4) =>
                  match rv with
                  | .ret u => some (.val u, st4)
                  | _ => some (.val rv, st4)
                | _ => none
              | _ => none
            | _ => some (.val .null, st1)
          | _ => none
      | .objectLit ps => evalCore fuel (.pairsT ps []) env st
      | .arrayLit elems =>
        match evalCore fuel (.argsT elems) env st with
        | some (.vals vs, st1) => some (.val (.arr vs), st1)
        | _ => none
      | .propertyAccess oO prop =>
        match evalCore fuel (.exprOT oO) env st with
        | some (.val ov, st1) =>
          match ov with
          | .arr es => some (.val (getArrayProperty es prop), st1)
          | .obj fs =>
            match lookupStore fs prop with
            | some v => some (.val v, st1)
            | none => some (.val .null, st1)
          | _ => some (.val .null, st1)
        | _ => none
      | .indexExpr lO iO =>
        match evalCore fuel (.exprOT lO) env st with
        | some (.val lv, st1) =>
          match lv with
          | .null => some (.val .null, st1)
          | _ =>
            match evalCore fuel (.exprOT iO) env st1 with
            | some (.val iv, st2) =>
              match iv with
              | .null => some (.val .null, st2)
              | _ =>
                match lv with
                | .arr es =>
                  match iv with
                  | .num x =>
                    let i := Q.truncToInt x
                    if i < 0 || (es.length : Int) ≤ i then some (.val .null, st2)
                    else some (.val (es.getD i.toNat .null), st2)
                  | _ => some (.val .null, st2)
                | .obj fs =>
                  match iv with
                  | .str key =>
                    match lookupStore fs key with
                    | some v => some (.val v, st2)
                    | none => some (.val .null, st2)
                  | _ => some (.val .null, st2)
                | _ => some (.val .null, st2)
            | _ => none
        | _ => none
    | .stmtT s =>
      match s with
      | .varStmt name vO =>
        match vO with
        | none => some (.val .null, envSet st env name .null)
        | some e =>
          match evalCore fuel (.exprT e) env st with
          | some (.val v, st1) => some (.val v, envSet st1 env name v)
          | _ => none
      | .returnStmt vO =>
        match evalCore fuel (.exprOT vO) env st with
        | some (.val v, st1) => some (.val (.ret v), st1)
        | _ => none
      | .exprStmt eO => evalCore fuel (.exprOT eO) env st
      | .blockStmt stmts =>
        let a := allocEnv st (some env)
        evalCore fuel (.blockT stmts .null) a.1 a.2
      | .ifStmt cond cons alt =>
        match evalCore fuel (.exprOT cond) env st with
        | some (.val c, st1) =>
          if isTruthy c then evalCore fuel (.stmtT (.blockStmt cons)) env st1
          else
            match alt with
            | some s2 => evalCore fuel (.stmtT s2) env st1
            | none => some (.val .null, st1)
        | _ => none
      | .whileStmt cond body => evalCore fuel (.whileT cond body .null) env st
    | .blockT stmts prev =>
      match stmts with
      | [] => some (.val prev, st)
      | s :: rest =>
        match evalCore fuel (.stmtT s) env st with
        | some (.val v, st1) =>
          match v with
          | .ret u => some (.val (.ret u), st1)
          | _ => evalCore fuel (.blockT rest v) env st1
        | _ => none
    | .progT stmts prev =>
      match stmts with
      | [] => some (.val prev, st)
      | s :: rest =>
        match evalCore fuel (.stmtT s) env st with
        | some (.val v, st1) =>
          match v with
          | .ret u => some (.val u, st1)
          | _ => evalCore fuel (.progT rest v) env st1
        | _ => none
    | .whileT cond body prev =>
      match evalCore fuel (.exprOT cond) env st with
      | some (.val c, st1) =>
        if !isTruthy c then some (.val prev, st1)
        else
          match evalCore fuel (.stmtT (.blockStmt body)) env st1 with
          | some (.val v, st2) =>
            match v with
            | .ret u => some (.val (.ret u), st2)
            | _ => evalCore fuel (.whileT cond body v) env st2
          | _ => none
      | _ => none
    | .argsT es =>
      match es with
      | [] => some (.vals [], st)
      | eO :: rest =>
        match evalCore fuel (.exprOT eO) env st with
        | some (.val v, st1) =>
          match evalCore fuel (.argsT rest) env st1 with
          | some (.vals vs, st2) => some (.vals (v :: vs), st2)
          | _ => none
        | _ => none
    | .pairsT ps acc =>
      match ps with
      | [] => some (.val (.obj acc), st)
      | (k, vO) :: rest =>
        match evalCore fuel (.exprOT vO) env st with
        | some (.val v, st1) => evalCore fuel (.pairsT rest (upsertAssoc acc k v)) env st1
        | _ => none

/-- `Eval` on an expression node. -/
def evalExpr (fuel : Nat) (e : Expr) (env : Nat) (st : State) : Option (Value × State) :=
  match evalCore fuel (.exprT e) env st with
  | some (.val v, st1) => some (v, st1)
  | _ => none

/-- `Eval` on a statement node. -/
def evalStmt (fuel : Nat) (s : Stmt) (env : Nat) (st : State) : Option (Value × State) :=
  match evalCore fuel (.stmtT s) env st with
  | some (.val v, st1) => some (v, st1)
  | _ => none

/-- `evalProgram`: the statements of the root program node, run directly in
the given environment. -/
def evalProgram (fuel : Nat) (stmts : List Stmt) (env : Nat) (st : State) :
    Option (Value × State) :=
  match evalCore fuel (.progT stmts .null) env st with
  | some (.val v, st1) => some (v, st1)
  | _ => none

/-- Ample evaluation fuel for every program evaluated in this file. -/
def evalFuel : Nat := 1000

/-- The outermost contract: scan, parse, and (only when the error list is
empty, as `runCode` in `main.go` requires) evaluate against a fresh global
environment, returning the program value. -/
def runSource (src : String) : Option Value :=
  let pr := parseProgram (tokenize src)
  match pr.2 with
  | [] =>
    match evalProgram evalFuel pr.1 0 initialState with
    | some (v, _) => some v
    | none => none
  | _ => none

/-!  Predicates used by the theorems. -/

/-- Is the value the internal return wrapper (at its top level)? -/
def isRetV : Value → Bool
  | .ret _ => true
  | _ => false

/-- Is the value a number? -/
def isNumV : Value → Bool
  | .num _ => true
  | _ => false

/-- Is the value a number, a string, or a boolean? -/
def isNumStrBool : Value → Bool
  | .num _ => true
  | .str _ => true
  | .bool _ => true
  | _ => false

/-- Is the value callable (a closure or a native builtin)? -/
def isCallable : Value → Bool
  | .closure _ _ _ => true
  | .builtinV _ => true
  | _ => false

mutual

/-- A value is wrapper-free: no `ret` wrapper anywhere inside it. -/
def goodV : Value → Bool
  | .null => true
  | .num _ => true
  | .str _ => true
  | .bool _ => true
  | .obj fs => goodFields fs
  | .arr es => goodElems es
  | .closure _ _ _ => true
  | .builtinV _ => true
  | .ret _ => false

/-- All field values are wrapper-free. -/
def goodFields : List (String × Value) → Bool
  | [] => true
  | (_, v) :: rest => goodV v && goodFields rest

/-- All list elements are wrapper-free. -/
def goodElems : List Value → Bool
  | [] => true
  | v :: rest => goodV v && goodElems rest

end

/-- Either wrapper-free, or the wrapper around a wrapper-free value (the two
shapes a statement evaluation can produce). -/
def goodOrRet : Value → Bool
  | .ret u => goodV u
  | v => goodV v

/-- All environment stores hold only wrapper-free values. -/
def goodEnvList : List EnvRec → Bool
  | [] => true
  | e :: rest => goodFields e.store && goodEnvList rest

/-- A state is wrapper-free when every environment store is. -/
def goodState (st : State) : Bool := goodEnvList st.envs

/-- The counter program of the closure-capture property, without the final
calls: it defines `makeCounter` and binds `c` to one returned counter. -/
def counterBase : String :=
  "var makeCounter = function()\x7b var count = 0; " ++
  "return function()\x7b count = count + 1; return count; \x7d; \x7d; var c = makeCounter(); "

/-!  C2.  The spec says every non-numeric, non-string operand coerces to 0;
the code (and its own test suite, `TestToFloat`) coerces booleans to 1 and
0, so `true + n` is `1 + n`, not `n`. -/

/-- C2 counterexample: the claim predicts `true + 5` yields `5`; the code
yields `6` (`toFloat(true)` is `1`, and the test suite expects exactly
that), so the claim as stated is false. -/
theorem c2_counterexample_true_plus_five :
    runSource "true + 5;" = some (.num (Q.ofInt 6)) ∧
    infixValue (.bool true) "+" (.num (Q.ofInt 5)) = .num (Q.ofInt 6) ∧
    toFloat (.bool true) = Q.ofInt 1 ∧
    Q.beq (Q.ofInt 6) (Q.ofInt 5) = false :=
  ⟨rfl, rfl, rfl, rfl⟩

/-- C2 amended: for every binary numeric operator both operands are coerced
through `toFloat`; an operand that is neither a number, a string, nor a
boolean (the absent value, objects, arrays, functions) is treated as 0,
while a boolean is treated as 1 (true) or 0 (false); hence for every number
n, `true + n` yields `1 + n`. -/
theorem c2_amended_coercion :
    (∀ v : Value, isNumStrBool v = false → toFloat v = Q.ofInt 0) ∧
    toFloat (.bool true) = Q.ofInt 1 ∧
    toFloat (.bool false) = Q.ofInt 0 ∧
    toFloat .null = Q.ofInt 0 ∧
    (∀ n : Q, infixValue (.bool true) "+" (.num n) = .num (Q.add (Q.ofInt 1) n)) ∧
    (∀ l r : Value, isNumStrBool l = false → isNumStrBool r = false →
      infixValue l "-" r = .num (Q.sub (Q.ofInt 0) (Q.ofInt 0)) ∧
      infixValue l "*" r = .num (Q.mul (Q.ofInt 0) (Q.ofInt 0)) ∧
      infixValue l "<" r = .bool (Q.blt (Q.ofInt 0) (Q.ofInt 0))) := by
  refine ⟨?_, rfl, rfl, rfl, ?_, ?_⟩
  · intro v h
    cases v <;> simp_all [toFloat, isNumStrBool]
  · intro n
    rfl
  · intro l r hl hr
    have hl0 : toFloat l = Q.ofInt 0 := by cases l <;> simp_all [toFloat, isNumStrBool]
    have hr0 : toFloat r = Q.ofInt 0 := by cases r <;> simp_all [toFloat, isNumStrBool]
    have hlstr : ∀ s, l ≠ .str s := by intro s hs; subst hs; simp [isNumStrBool] at hl
    have hrstr : ∀ s, r ≠ .str s := by intro s hs; subst hs; simp [isNumStrBool] at hr
    refine ⟨?_, ?_, ?_⟩ <;> simp [infixValue, hl0, hr0]

/-- C2 amended, witness: the absent value and an object coerce to 0, and
`true + 5` computes as `1 + 5`. -/
theorem c2_amended_coercion_witness :
    toFloat (Value.obj []) = Q.ofInt 0 ∧
    infixValue (.bool true) "+" (.num (Q.ofInt 5)) = .num (Q.add (Q.ofInt 1) (Q.ofInt 5)) :=
  ⟨c2_amended_coercion.1 (Value.obj []) rfl, c2_amended_coercion.2.2.2.2.1 (Q.ofInt 5)⟩

/-!  C3.  Closures capture the defining environment by reference. -/

/-- C3: a function literal evaluates to a closure holding the index of the
environment active at its definition point (a reference into the heap, not
a copy of the store), and the counter program observes shared mutable
captured state across three calls: the programs ending after the first,
second and third call of `c` evaluate to 1, 2 and 3 respectively. -/
theorem c3_closure_captures_env_by_reference :
    (∀ fuel ps body env st,
      evalCore (fuel+1) (.exprT (.functionLit ps body)) env st =
        some (.val (.closure ps body env), st)) ∧
    runSource (counterBase ++ "c();") = some (.num (Q.ofInt 1)) ∧
    runSource (counterBase ++ "c(); c();") = some (.num (Q.ofInt 2)) ∧
    runSource (counterBase ++ "c(); c(); c();") = some (.num (Q.ofInt 3)) := by
  refine ⟨fun _ _ _ _ _ => rfl, ?_, ?_, ?_⟩
  · rfl
  · rfl
  · rfl

/-!  C7.  Operator precedence and associativity. -/

/-- C7: the precedence table puts `*` and `/` (PRODUCT) above `+` and `-`
(SUM); for all number literals a, b, c, the token stream of `a + b * c;`
parses as `a + (b * c)` and that of `a - b - c;` parses as `(a - b) - c`
(multiplication binds tighter, same-precedence operators associate left);
`2 + 3 * 4;` evaluates to 14, not 20, and `10 - 2 - 3;` evaluates to 5. -/
theorem c7_precedence_multiplication_over_addition :
    getPrec .starT = precProduct ∧ getPrec .slashT = precProduct ∧
    getPrec .plusT = precSum ∧ getPrec .minusT = precSum ∧
    precSum < precProduct ∧
    (∀ s1 s2 s3 q1 q2 q3, parseFloatLit s1 = some q1 → parseFloatLit s2 = some q2 →
      parseFloatLit s3 = some q3 →
      parseProgram [⟨.numberT, s1⟩, ⟨.plusT, "+"⟩, ⟨.numberT, s2⟩,
          ⟨.starT, "*"⟩, ⟨.numberT, s3⟩, ⟨.semicolonT, ";"⟩] =
        ([.exprStmt (some (.infixExpr (some (.numberLit q1)) "+"
          (some (.infixExpr (some (.numberLit q2)) "*" (some (.numberLit q3))))))], [])) ∧
    (∀ s1 s2 s3 q1 q2 q3, parseFloatLit s1 = some q1 → parseFloatLit s2 = some q2 →
      parseFloatLit s3 = some q3 →
      parseProgram [⟨.numberT, s1⟩, ⟨.minusT, "-"⟩, ⟨.numberT, s2⟩,
          ⟨.minusT, "-"⟩, ⟨.numberT, s3⟩, ⟨.semicolonT, ";"⟩] =
        ([.exprStmt (some (.infixExpr
          (some (.infixExpr (some (.numberLit q1)) "-" (some (.numberLit q2)))) "-"
          (some (.numberLit q3))))], [])) ∧
    parseProgram (tokenize "2 + 3 * 4;") =
      ([.exprStmt (some (.infixExpr (some (.numberLit (Q.ofNat 2))) "+"
        (some (.infixExpr (some (.numberLit (Q.ofNat 3))) "*"
          (some (.numberLit (Q.ofNat 4)))))))], []) ∧
    runSource "2 + 3 * 4;" = some (.num (Q.ofInt 14)) ∧
    parseProgram (tokenize "10 - 2 - 3;") =
      ([.exprStmt (some (.infixExpr
        (some (.infixExpr (some (.numberLit (Q.ofNat 10))) "-"
          (some (.numberLit (Q.ofNat 2))))) "-"
        (some (.numberLit (Q.ofNat 3)))))], []) ∧
    runSource "10 - 2 - 3;" = some (.num (Q.ofInt 5)) := by
  refine ⟨rfl, rfl, rfl, rfl, by decide, ?_, ?_, rfl, rfl, rfl, rfl⟩
  · intro s1 s2 s3 q1 q2 q3 h1 h2 h3
    simp [parseProgram, parseCore, pInit, pAdvance, pExpectPeek, getPrec, h1, h2, h3,
      precLowest, precSum, precProduct, eofToken, PRes.asExpr, PRes.asStmt]
  · intro s1 s2 s3 q1 q2 q3 h1 h2 h3
    simp [parseProgram, parseCore, pInit, pAdvance, pExpectPeek, getPrec, h1, h2, h3,
      precLowest, precSum, precProduct, eofToken, PRes.asExpr, PRes.asStmt]

/-- C7 witness: the general parse shapes instantiated at the literals of
the two quoted programs. -/
theorem c7_precedence_multiplication_over_addition_witness :
    parseProgram [⟨.numberT, "2"⟩, ⟨.plusT, "+"⟩, ⟨.numberT, "3"⟩,
        ⟨.starT, "*"⟩, ⟨.numberT, "4"⟩, ⟨.semicolonT, ";"⟩] =
      ([.exprStmt (some (.infixExpr (some (.numberLit (Q.ofNat 2))) "+"
        (some (.infixExpr (some (.numberLit (Q.ofNat 3))) "*"
          (some (.numberLit (Q.ofNat 4)))))))], []) ∧
    parseProgram [⟨.numberT, "10"⟩, ⟨.minusT, "-"⟩, ⟨.numberT, "2"⟩,
        ⟨.minusT, "-"⟩, ⟨.numberT, "3"⟩, ⟨.semicolonT, ";"⟩] =
      ([.exprStmt (some (.infixExpr
        (some (.infixExpr (some (.numberLit (Q.ofNat 10))) "-"
          (some (.numberLit (Q.ofNat 2))))) "-"
        (some (.numberLit (Q.ofNat 3)))))], []) :=
  ⟨c7_precedence_multiplication_over_addition.2.2.2.2.2.1
      "2" "3" "4" (Q.ofNat 2) (Q.ofNat 3) (Q.ofNat 4) rfl rfl rfl,
   c7_precedence_multiplication_over_addition.2.2.2.2.2.2.1
      "10" "2" "3" (Q.ofNat 10) (Q.ofNat 2) (Q.ofNat 3) rfl rfl rfl⟩

/-!  C9.  Equality semantics.  The spec's "two values of the same variant
compare equal exactly when their contents are equal" fails for objects,
arrays and functions: `equals` only has value cases for numbers, strings
and booleans and falls through to false for everything else, so two objects
with identical contents (indeed the very same object) compare unequal. -/

/-- C9 counterexample: two empty objects — the same variant with equal
contents — compare as false under `equals`, and so does an object compared
with itself through `==` in source. -/
theorem c9_counterexample_object_equality :
    equalsV (Value.obj []) (Value.obj []) = false ∧
    equalsV (Value.arr [.num (Q.ofInt 1)]) (Value.arr [.num (Q.ofInt 1)]) = false ∧
    runSource "var o = \x7b\x7d; o == o;" = some (.bool false) :=
  ⟨rfl, rfl, rfl⟩

/-- C9 amended: equality never coerces across variants (`5 == "5"` is
false); numbers, strings and booleans compare by value within their
variant; the absent value equals only itself; and objects, arrays,
closures and builtins always compare false, even with identical contents. -/
theorem c9_amended_equality :
    (∀ x s, equalsV (.num x) (.str s) = false) ∧
    (∀ x s, equalsV (.str s) (.num x) = false) ∧
    runSource "5 == \"5\";" = some (.bool false) ∧
    (∀ x y, equalsV (.num x) (.num y) = Q.beq x y) ∧
    (∀ a b, equalsV (.str a) (.str b) = (a == b)) ∧
    (∀ a b, equalsV (.bool a) (.bool b) = (a == b)) ∧
    equalsV .null .null = true ∧
    (∀ v, equalsV .null (.num v) = false) ∧
    (∀ fs gs, equalsV (.obj fs) (.obj gs) = false) ∧
    (∀ es fs, equalsV (.arr es) (.arr fs) = false) :=
  ⟨fun _ _ => rfl, fun _ _ => rfl, rfl, fun _ _ => rfl, fun _ _ => rfl,
   fun _ _ => rfl, rfl, fun _ => rfl, fun _ _ => rfl, fun _ _ => rfl⟩

/-!  C10.  Prefix minus does not use the binary coercion. -/

/-- C10: prefix minus negates numbers and sends every non-number (absent,
booleans, strings, objects, arrays, functions) to 0 without invoking
`toFloat`; so `-"5"` and `-true` yield 0, even though `0 - "5"` yields -5
and `true` coerces to 1 in binary arithmetic. -/
theorem c10_prefix_minus_no_coercion :
    (∀ v : Value, isNumV v = false → prefixValue "-" v = .num (Q.ofInt 0)) ∧
    (∀ x : Q, prefixValue "-" (.num x) = .num (Q.neg x)) ∧
    runSource "-\"5\";" = some (.num (Q.ofInt 0)) ∧
    runSource "-true;" = some (.num (Q.ofInt 0)) ∧
    runSource "0 - \"5\";" = some (.num (Q.sub (Q.ofInt 0) (Q.ofInt 5))) ∧
    toFloat (.str "5") = Q.ofInt 5 ∧
    toFloat (.bool true) = Q.ofInt 1 := by
  refine ⟨?_, fun _ => rfl, rfl, rfl, rfl, ?_, rfl⟩
  · intro v h
    cases v <;> simp_all [prefixValue, isNumV]
  · rfl

/-- C10 witness: the string "5" and the boolean true are sent to 0. -/
theorem c10_prefix_minus_no_coercion_witness :
    prefixValue "-" (Value.str "5") = .num (Q.ofInt 0) ∧
    prefixValue "-" (Value.bool true) = .num (Q.ofInt 0) :=
  ⟨c10_prefix_minus_no_coercion.1 (Value.str "5") rfl,
   c10_prefix_minus_no_coercion.1 (Value.bool true) rfl⟩

/-!  C1.  Return-signal propagation through statement sequences.  The claim
says neither the program node nor a block node unwraps the wrapper; but
`evalProgram` returns `returnValue.Value` — it unwraps — while
`evalBlockStatement` returns the wrapper unchanged.  The code's own test
suite (`TestEvalReturnStatements`) expects the unwrapped number from a
top-level `return`, so the code is as intended and the claim's program half
is wrong. -/

/-- C1 counterexample: the top-level statement `return 7;` yields the
wrapped value as a statement, yet the program node returns the plain number
7, not the wrapper — the program node does unwrap. -/
theorem c1_counterexample_program_node_unwraps :
    evalStmt 10 (.returnStmt (some (.numberLit (Q.ofInt 7)))) 0 initialState =
      some (.ret (.num (Q.ofInt 7)), initialState) ∧
    evalProgram 10 [.returnStmt (some (.numberLit (Q.ofInt 7)))] 0 initialState =
      some (.num (Q.ofInt 7), initialState) ∧
    runSource "return 7;" = some (.num (Q.ofInt 7)) ∧
    Value.num (Q.ofInt 7) ≠ Value.ret (Value.num (Q.ofInt 7)) :=
  ⟨rfl, rfl, rfl, fun h => Value.noConfusion h⟩

/-- C1 amended: a statement sequence stops at the first statement that
yields the return signal; a block propagates the signal upward unchanged
(no unwrapping), and a non-signal result continues the sequence; the
program node also stops at the first signal but unwraps it, handing back
the inner value.  (Function call sites unwrap as well.) -/
theorem c1_amended_block_propagates_program_unwraps :
    (∀ fuel s rest prev env st v st',
      evalCore fuel (.stmtT s) env st = some (.val (.ret v), st') →
      evalCore (fuel+1) (.blockT (s :: rest) prev) env st =
        some (.val (.ret v), st')) ∧
    (∀ fuel s rest prev env st v st',
      evalCore fuel (.stmtT s) env st = some (.val v, st') → isRetV v = false →
      evalCore (fuel+1) (.blockT (s :: rest) prev) env st =
        evalCore fuel (.blockT rest v) env st') ∧
    (∀ fuel s rest prev env st v st',
      evalCore fuel (.stmtT s) env st = some (.val (.ret v), st') →
      evalCore (fuel+1) (.progT (s :: rest) prev) env st = some (.val v, st')) ∧
    (∀ fuel stmts env st,
      evalCore (fuel+1) (.stmtT (.blockStmt stmts)) env st =
        evalCore fuel (.blockT stmts .null) (allocEnv st (some env)).1
          (allocEnv st (some env)).2) := by
  refine ⟨?_, ?_, ?_, ?_⟩
  · intro fuel s rest prev env st v st' h
    simp only [evalCore, h]
  · intro fuel s rest prev env st v st' h hv
    simp only [evalCore, h]
    cases v <;> simp_all [isRetV]
  · intro fuel s rest prev env st v st' h
    simp only [evalCore, h]
  · intro fuel stmts env st
    rfl

/-- C1 amended, witness: in the block `\x7b return 7; 8; \x7d` the
sequence stops at the `return` and hands the wrapper back unchanged, while
the same statements as a program yield the unwrapped 7. -/
theorem c1_amended_block_propagates_program_unwraps_witness :
    evalCore 11 (.blockT [Stmt.returnStmt (some (.numberLit (Q.ofInt 7))),
        Stmt.exprStmt (some (.numberLit (Q.ofInt 8)))] .null) 0 initialState =
      some (.val (.ret (.num (Q.ofInt 7))), initialState) ∧
    evalCore 11 (.progT [Stmt.returnStmt (some (.numberLit (Q.ofInt 7))),
        Stmt.exprStmt (some (.numberLit (Q.ofInt 8)))] .null) 0 initialState =
      some (.val (.num (Q.ofInt 7)), initialState) :=
  ⟨c1_amended_block_propagates_program_unwraps.1 10
      (Stmt.returnStmt (some (.numberLit (Q.ofInt 7))))
      [Stmt.exprStmt (some (.numberLit (Q.ofInt 8)))] .null 0 initialState
      (.num (Q.ofInt 7)) initialState rfl,
   c1_amended_block_propagates_program_unwraps.2.2.1 10
      (Stmt.returnStmt (some (.numberLit (Q.ofInt 7))))
      [Stmt.exprStmt (some (.numberLit (Q.ofInt 8)))] .null 0 initialState
      (.num (Q.ofInt 7)) initialState rfl⟩

/-!  C4.  `return` short-circuits out of loops and the enclosing call. -/

/-- Does the call expression bypass the builtin registry?  (The registry is
only consulted for a bare-identifier callee.) -/
def registryFree : Option Expr → Prop
  | some (.ident n) => builtinsGet n = false
  | _ => True

/-- C4: if a while-loop body yields the return signal, the loop stops and
propagates the signal; a function call site evaluates the body and unwraps
a return signal to its inner value; and the quoted program evaluates to 7,
never reaching `return 8`. -/
theorem c4_return_shortcircuits_loop_and_call :
    (∀ fuel cond body prev env st c st1 v st2,
      evalCore fuel (.exprOT cond) env st = some (.val c, st1) →
      isTruthy c = true →
      evalCore fuel (.stmtT (.blockStmt body)) env st1 =
        some (.val (.ret v), st2) →
      evalCore (fuel+1) (.whileT cond body prev) env st =
        some (.val (.ret v), st2)) ∧
    (∀ fuel fnE args env st ps body cenv st1 vs st2 rv st3,
      registryFree fnE →
      evalCore fuel (.exprOT fnE) env st = some (.val (.closure ps body cenv), st1) →
      evalCore fuel (.argsT args) env st1 = some (.vals vs, st2) →
      evalCore fuel (.stmtT (.blockStmt body)) (allocEnv st2 (some cenv)).1
          (bindParams (allocEnv st2 (some cenv)).2 (allocEnv st2 (some cenv)).1 ps vs) =
        some (.val rv, st3) →
      evalCore (fuel+1) (.exprT (.callExpr fnE args)) env st =
        some (.val (match rv with | .ret u => u | _ => rv), st3)) ∧
    runSource "var f = function()\x7b while(true)\x7b return 7; \x7d return 8; \x7d; f();" =
      some (.num (Q.ofInt 7)) := by
  refine ⟨?_, ?_, ?_⟩
  · intro fuel cond body prev env st c st1 v st2 h1 h2 h3
    simp only [evalCore, h1, h2, h3, Bool.not_true, Bool.false_eq_true, if_false]
  · intro fuel fnE args env st ps body cenv st1 vs st2 rv st3 hreg h1 h2 h3
    match fnE with
    | none =>
      simp only [evalCore, h1, h2, h3]
      cases rv <;> rfl
    | some (.ident n) =>
      simp only [registryFree] at hreg
      simp only [evalCore, hreg, h1, h2, h3]
      cases rv <;> rfl
    | some (.numberLit x) | some (.stringLit s) | some (.booleanLit b)
    | some (.prefixExpr op r) | some (.infixExpr l op r) | some (.assignExpr n v)
    | some (.functionLit ps2 b2) | some (.callExpr f2 a2) | some (.objectLit prs)
    | some (.arrayLit els) | some (.propertyAccess o pr) | some (.indexExpr l i) =>
      simp only [evalCore, h1, h2, h3]
      cases rv <;> rfl
  · rfl

/-- C4 witness: the loop `while (true) \x7b return 7; \x7d` propagates the
return signal out of the loop. -/
theorem c4_return_shortcircuits_loop_and_call_witness :
    evalCore 11 (.whileT (some (.booleanLit true))
        [Stmt.returnStmt (some (.numberLit (Q.ofInt 7)))] .null) 0 initialState =
      some (.val (.ret (.num (Q.ofInt 7))),
        { envs := [{ store := [], outer := none }, { store := [], outer := some 0 }] }) :=
  c4_return_shortcircuits_loop_and_call.1 10 (some (.booleanLit true))
    [Stmt.returnStmt (some (.numberLit (Q.ofInt 7)))] .null 0 initialState
    (.bool true) initialState (.num (Q.ofInt 7))
    { envs := [{ store := [], outer := none }, { store := [], outer := some 0 }] }
    rfl rfl rfl

/-!  C8.  Runtime anomalies never raise a propagating failure. -/

/-- C8: the listed anomalies resolve to absent/zero values and execution
continues: an undefined variable evaluates to the absent value; an
out-of-range or negative array index evaluates to the absent value; calling
a value that is neither a closure nor a builtin evaluates to the absent
value; a division whose divisor is numerically zero evaluates to the
number 0; and in each case the following statements still run (the
concrete two-statement programs produce their second value). -/
theorem c8_runtime_anomalies_fail_soft :
    (∀ fuel name env st, envGet st env name = none →
      evalCore (fuel+1) (.exprT (.ident name)) env st = some (.val .null, st)) ∧
    (∀ fuel lE iE env st es st1 x st2,
      evalCore fuel (.exprOT lE) env st = some (.val (.arr es), st1) →
      evalCore fuel (.exprOT iE) env st1 = some (.val (.num x), st2) →
      (Q.truncToInt x < 0 ∨ (es.length : Int) ≤ Q.truncToInt x) →
      evalCore (fuel+1) (.exprT (.indexExpr lE iE)) env st = some (.val .null, st2)) ∧
    (∀ fuel fnE args env st fv st1,
      registryFree fnE →
      evalCore fuel (.exprOT fnE) env st = some (.val fv, st1) →
      isCallable fv = false →
      evalCore (fuel+1) (.exprT (.callExpr fnE args)) env st =
        some (.val .null, st1)) ∧
    (∀ l r, Q.beq (toFloat r) (Q.ofInt 0) = true →
      infixValue l "/" r = .num (Q.ofInt 0)) ∧
    runSource "missingVar;" = some .null ∧
    runSource "missingVar; 1 + 1;" = some (.num (Q.ofInt 2)) ∧
    runSource "5(3); 42;" = some (.num (Q.ofInt 42)) ∧
    runSource "10 / 0;" = some (.num (Q.ofInt 0)) ∧
    runSource "10 / 0; 9;" = some (.num (Q.ofInt 9)) ∧
    evalProgram 20 [.exprStmt (some (.indexExpr
        (some (.arrayLit [some (.numberLit (Q.ofInt 1)), some (.numberLit (Q.ofInt 2)),
          some (.numberLit (Q.ofInt 3))]))
        (some (.numberLit (Q.ofInt 5)))))] 0 initialState =
      some (.null, initialState) ∧
    evalProgram 20 [.exprStmt (some (.indexExpr
        (some (.arrayLit [some (.numberLit (Q.ofInt 1)), some (.numberLit (Q.ofInt 2)),
          some (.numberLit (Q.ofInt 3))]))
        (some (.numberLit (Q.ofInt (-1))))))] 0 initialState =
      some (.null, initialState) := by
  refine ⟨?_, ?_, ?_, ?_, rfl, rfl, rfl, rfl, rfl, rfl, rfl⟩
  · intro fuel name env st h
    simp only [evalCore, h]
  · intro fuel lE iE env st es st1 x st2 h1 h2 h3
    simp only [evalCore, h1, h2]
    rcases h3 with h | h <;> simp [h]
  · intro fuel fnE args env st fv st1 hreg h1 hcall
    match fnE with
    | none =>
      cases fuel with
      | zero => simp [evalCore] at h1
      | succ fuel2 =>
        simp only [evalCore, Option.some.injEq, Prod.mk.injEq, ERes.val.injEq] at h1
        obtain ⟨h1a, h1b⟩ := h1
        subst h1b
        simp [evalCore]
    | some (.ident n) =>
      simp only [registryFree] at hreg
      simp only [evalCore, hreg, h1]
      cases fv <;> simp_all [isCallable]
    | some (.numberLit xq) | some (.stringLit sx) | some (.booleanLit bx)
    | some (.prefixExpr op r) | some (.infixExpr l op r) | some (.assignExpr n v)
    | some (.functionLit ps2 b2) | some (.callExpr f2 a2) | some (.objectLit prs)
    | some (.arrayLit els) | some (.propertyAccess o pr) | some (.indexExpr l i) =>
      simp only [evalCore, h1]
      cases fv <;> simp_all [isCallable]
  · intro l r h
    simp [infixValue, h]

/-- C8 witness: looking up a name absent from the fresh global environment
yields the absent value, and `10 / 0` computed on values yields 0. -/
theorem c8_runtime_anomalies_fail_soft_witness :
    evalCore 4 (.exprT (.ident "missingVar")) 0 initialState =
      some (.val .null, initialState) ∧
    infixValue (.num (Q.ofInt 10)) "/" (.num (Q.ofInt 0)) = .num (Q.ofInt 0) :=
  ⟨c8_runtime_anomalies_fail_soft.1 3 "missingVar" 0 initialState rfl,
   c8_runtime_anomalies_fail_soft.2.2.2.1 (.num (Q.ofInt 10)) (.num (Q.ofInt 0)) rfl⟩

/-!  Wrapper-freedom lemmas feeding the C5 invariant: every primitive the
evaluator uses to move values around preserves wrapper-freedom. -/

theorem goodOrRet_of_good {v : Value} (h : goodV v = true) : goodOrRet v = true := by
  cases v <;> simp_all [goodOrRet, goodV]

theorem goodV_of_goodOrRet_not_ret {v : Value} (h : goodOrRet v = true)
    (hnr : ∀ u, v = Value.ret u → False) : goodV v = true := by
  cases v <;> first
    | exact h
    | exact absurd rfl (hnr _)

theorem lookupStore_good {fs : List (String × Value)} {name : String} {v : Value}
    (hf : goodFields fs = true) (h : lookupStore fs name = some v) : goodV v = true := by
  induction fs with
  | nil => simp [lookupStore] at h
  | cons hd tl ih =>
    obtain ⟨k, w⟩ := hd
    simp only [goodFields, Bool.and_eq_true] at hf
    by_cases hk : k = name
    · simp only [lookupStore, hk, if_true, Option.some.injEq] at h
      subst h
      exact hf.1
    · simp only [lookupStore, hk, if_false] at h
      exact ih hf.2 h

theorem upsertAssoc_good {fs : List (String × Value)} {k : String} {v : Value}
    (hf : goodFields fs = true) (hv : goodV v = true) :
    goodFields (upsertAssoc fs k v) = true := by
  induction fs with
  | nil => simp [upsertAssoc, goodFields, hv]
  | cons hd tl ih =>
    obtain ⟨k0, w⟩ := hd
    simp only [goodFields, Bool.and_eq_true] at hf
    by_cases hk : k0 = k
    · simp [upsertAssoc, hk, goodFields, hv, hf.2]
    · simp [upsertAssoc, hk, goodFields, hf.1, ih hf.2]

theorem goodEnvList_get {l : List EnvRec} {i : Nat} {e : EnvRec}
    (hl : goodEnvList l = true) (h : l.get? i = some e) : goodFields e.store = true := by
  induction l generalizing i with
  | nil => simp at h
  | cons hd tl ih =>
    simp only [goodEnvList, Bool.and_eq_true] at hl
    cases i with
    | zero =>
      simp only [List.get?] at h
      cases h
      exact hl.1
    | succ j =>
      simp only [List.get?] at h
      exact ih hl.2 h

theorem goodEnvList_set {l : List EnvRec} {i : Nat} {rec : EnvRec}
    (hl : goodEnvList l = true) (hr : goodFields rec.store = true) :
    goodEnvList (l.set i rec) = true := by
  induction l generalizing i with
  | nil => simpa using hl
  | cons hd tl ih =>
    simp only [goodEnvList, Bool.and_eq_true] at hl
    cases i with
    | zero => simp [List.set, goodEnvList, hr, hl.2]
    | succ j => simp [List.set, goodEnvList, hl.1, ih hl.2]

theorem goodEnvList_append_empty {l : List EnvRec} {outer : Option Nat}
    (hl : goodEnvList l = true) :
    goodEnvList (l ++ [{ store := [], outer := outer }]) = true := by
  induction l with
  | nil => rfl
  | cons hd tl ih =>
    simp only [goodEnvList, Bool.and_eq_true] at hl
    simp only [List.cons_append, goodEnvList, Bool.and_eq_true]
    exact ⟨hl.1, ih hl.2⟩

theorem envSet_good {st : State} {i : Nat} {name : String} {v : Value}
    (hst : goodState st = true) (hv : goodV v = true) :
    goodState (envSet st i name v) = true := by
  unfold envSet
  split
  · exact hst
  next e he =>
    exact goodEnvList_set hst (upsertAssoc_good (goodEnvList_get hst he) hv)

theorem envGetAux_good {st : State} (hst : goodState st = true) :
    ∀ fuel i name v, envGetAux st fuel i name = some v → goodV v = true := by
  intro fuel
  induction fuel with
  | zero => intro i name v h; simp [envGetAux] at h
  | succ f ih =>
    intro i name v h
    simp only [envGetAux] at h
    split at h
    · exact absurd h (by simp)
    next e he =>
      split at h
      next w hw =>
        cases h
        exact lookupStore_good (goodEnvList_get hst he) hw
      next hw =>
        split at h
        next j hj => exact ih j name v h
        next => exact absurd h (by simp)

theorem envGet_good {st : State} {i : Nat} {name : String} {v : Value}
    (hst : goodState st = true) (h : envGet st i name = some v) : goodV v = true :=
  envGetAux_good hst _ i name v h

theorem envUpdateAux_good {st : State} {v : Value}
    (hst : goodState st = true) (hv : goodV v = true) :
    ∀ fuel i name, goodState (envUpdateAux st fuel i name v) = true := by
  intro fuel
  induction fuel with
  | zero => intro i name; simpa [envUpdateAux] using hst
  | succ f ih =>
    intro i name
    simp only [envUpdateAux]
    split
    · exact hst
    next e he =>
      split
      · exact envSet_good hst hv
      · split
        next j hj =>
          split
          · exact ih j name
          · exact envSet_good hst hv
        next => exact envSet_good hst hv

theorem envUpdate_good {st : State} {i : Nat} {name : String} {v : Value}
    (hst : goodState st = true) (hv : goodV v = true) :
    goodState (envUpdate st i name v) = true :=
  envUpdateAux_good hst hv _ i name

theorem allocEnv_good {st : State} {outer : Option Nat}
    (hst : goodState st = true) : goodState (allocEnv st outer).2 = true :=
  goodEnvList_append_empty hst

theorem bindParams_good :
    ∀ (ps : List String) (st : State) (i : Nat) (vs : List Value),
      goodState st = true → goodElems vs = true →
      goodState (bindParams st i ps vs) = true := by
  intro ps
  induction ps with
  | nil => intro st i vs h _; simpa [bindParams] using h
  | cons p ptl ih =>
    intro st i vs hst hvs
    cases vs with
    | nil =>
      have h0 : goodState (envSet st i p Value.null) = true :=
        envSet_good hst (by rfl)
      simpa [bindParams] using ih _ i [] h0 rfl
    | cons a atl =>
      simp only [goodElems, Bool.and_eq_true] at hvs
      have h0 : goodState (envSet st i p a) = true := envSet_good hst hvs.1
      simpa [bindParams] using ih _ i atl h0 hvs.2

theorem infixValue_good (l : Value) (op : String) (r : Value) :
    goodV (infixValue l op r) = true := by
  unfold infixValue
  split_ifs <;> first
    | rfl
    | (cases l <;> cases r <;> rfl)
    | (dsimp only; split <;> rfl)

theorem prefixValue_good (op : String) (r : Value) :
    goodV (prefixValue op r) = true := by
  unfold prefixValue
  split_ifs <;> first
    | rfl
    | (cases r <;> rfl)

theorem getArrayProperty_good (es : List Value) (p : String) :
    goodV (getArrayProperty es p) = true := by
  unfold getArrayProperty
  split_ifs <;> rfl

theorem callBuiltinFn_good (n : String) (vs : List Value) :
    goodV (callBuiltinFn n vs) = true := by
  unfold callBuiltinFn
  split_ifs <;> rfl

theorem goodElems_getD :
    ∀ (es : List Value) (n : Nat), goodElems es = true →
      goodV (es.getD n .null) = true := by
  intro es
  induction es with
  | nil => intro n _; cases n <;> rfl
  | cons v tl ih =>
    intro n h
    simp only [goodElems, Bool.and_eq_true] at h
    cases n with
    | zero => simpa [List.getD] using h.1
    | succ m => simpa [List.getD] using ih m h.2

/-- Precondition on a task's accumulator arguments: the values a task
carries in (loop accumulators, object fields built so far) are
wrapper-free. -/
def goodTask : ETask → Bool
  | .progT _ prev => goodV prev
  | .blockT _ prev => goodV prev
  | .whileT _ _ prev => goodV prev
  | .pairsT _ acc => goodFields acc
  | _ => true

/-- Postcondition on a task's result: expression-like tasks produce
wrapper-free values; statement-like tasks produce a wrapper-free value or
the wrapper around one; the program loop produces a wrapper-free value
(it unwraps); an argument list is element-wise wrapper-free. -/
def goodResFor : ETask → ERes → Bool
  | .exprT _, .val v => goodV v
  | .exprOT _, .val v => goodV v
  | .stmtT _, .val v => goodOrRet v
  | .progT _ _, .val v => goodV v
  | .blockT _ _, .val v => goodOrRet v
  | .whileT _ _ _, .val v => goodOrRet v
  | .argsT _, .vals vs => goodElems vs
  | .pairsT _ _, .val v => goodV v
  | _, _ => false

/-- The evaluator invariant: starting from a wrapper-free state with
wrapper-free task accumulators, every evaluation that completes leaves a
wrapper-free state and produces a result of the shape `goodResFor`
prescribes — in particular, expression values and program values never
carry the internal return wrapper, and nothing stored in any environment
ever does. -/
theorem evalCore_good :
    ∀ fuel task env st res st',
      goodState st = true → goodTask task = true →
      evalCore fuel task env st = some (res, st') →
      goodState st' = true ∧ goodResFor task res = true := by
  intro fuel
  induction fuel with
  | zero => intro task env st res st' _ _ h; simp [evalCore] at h
  | succ fuel ih =>
    intro task env st res st' hst htask heval
    cases task with
    | exprOT e =>
      cases e with
      | none =>
        simp only [evalCore] at heval
        cases heval
        exact ⟨hst, rfl⟩
      | some e2 =>
        simp only [evalCore] at heval
        obtain ⟨h1, h2⟩ := ih (.exprT e2) env st res st' hst rfl heval
        refine ⟨h1, ?_⟩
        cases res <;> simpa [goodResFor] using h2
    | exprT e =>
      cases e with
      | ident name =>
        simp only [evalCore] at heval
        split at heval
        next v hv =>
          cases heval
          exact ⟨hst, envGet_good hst hv⟩
        next =>
          cases heval
          exact ⟨hst, rfl⟩
      | numberLit x =>
        simp only [evalCore] at heval
        cases heval
        exact ⟨hst, rfl⟩
      | stringLit sx =>
        simp only [evalCore] at heval
        cases heval
        exact ⟨hst, rfl⟩
      | booleanLit b =>
        simp only [evalCore] at heval
        cases heval
        exact ⟨hst, rfl⟩
      | prefixExpr op r =>
        simp only [evalCore] at heval
        split at heval
        next rv st1 hr =>
          cases heval
          obtain ⟨h1, _⟩ := ih (.exprOT r) env st _ _ hst rfl hr
          exact ⟨h1, prefixValue_good op rv⟩
        next => exact absurd heval (by simp)
      | infixExpr l op r =>
        simp only [evalCore] at heval
        split at heval
        next lv st1 hl =>
          split at heval
          next rv st2 hr =>
            cases heval
            obtain ⟨h1, _⟩ := ih (.exprOT l) env st _ _ hst rfl hl
            obtain ⟨h2, _⟩ := ih (.exprOT r) env st1 _ _ h1 rfl hr
            exact ⟨h2, infixValue_good lv op rv⟩
          next => exact absurd heval (by simp)
        next => exact absurd heval (by simp)
      | assignExpr name vO =>
        simp only [evalCore] at heval
        split at heval
        next v st1 hv =>
          cases heval
          obtain ⟨h1, hg⟩ := ih (.exprOT vO) env st _ _ hst rfl hv
          exact ⟨envUpdate_good h1 hg, hg⟩
        next => exact absurd heval (by simp)
      | functionLit ps body =>
        simp only [evalCore] at heval
        cases heval
        exact ⟨hst, rfl⟩
      | callExpr fnO args =>
        simp only [evalCore] at heval
        split at heval
        next n hn =>
          split at heval
          next vs st1 hargs =>
            cases heval
            obtain ⟨h1, _⟩ := ih (.argsT args) env st _ _ hst rfl hargs
            exact ⟨h1, callBuiltinFn_good n vs⟩
          next => exact absurd heval (by simp)
        next hreg =>
          split at heval
          next fv st1 hfn =>
            obtain ⟨h1, hfv⟩ := ih (.exprOT fnO) env st _ _ hst rfl hfn
            split at heval
            next n2 =>
              split at heval
              next vs st2 hargs =>
                cases heval
                obtain ⟨h2, _⟩ := ih (.argsT args) env st1 _ _ h1 rfl hargs
                exact ⟨h2, callBuiltinFn_good n2 vs⟩
              next => exact absurd heval (by simp)
            next ps body cenv =>
              split at heval
              next vs st2 hargs =>
                obtain ⟨h2, hvs⟩ := ih (.argsT args) env st1 _ _ h1 rfl hargs
                split at heval
                next rv st4 hbody =>
                  have h3 : goodState (bindParams (allocEnv st2 (some cenv)).2
                      (allocEnv st2 (some cenv)).1 ps vs) = true :=
                    bindParams_good ps _ _ vs (allocEnv_good h2) hvs
                  obtain ⟨h4, hrv⟩ := ih (.stmtT (.blockStmt body)) _ _ _ _ h3 rfl hbody
                  split at heval
                  next u =>
                    cases heval
                    exact ⟨h4, by simpa [goodOrRet] using hrv⟩
                  next hnr =>
                    cases heval
                    exact ⟨h4, goodV_of_goodOrRet_not_ret hrv hnr⟩
                next => exact absurd heval (by simp)
              next => exact absurd heval (by simp)
            next =>
              cases heval
              exact ⟨h1, rfl⟩
          next => exact absurd heval (by simp)
      | objectLit ps =>
        simp only [evalCore] at heval
        obtain ⟨h1, h2⟩ := ih (.pairsT ps []) env st res st' hst rfl heval
        refine ⟨h1, ?_⟩
        cases res <;> simpa [goodResFor] using h2
      | arrayLit elems =>
        simp only [evalCore] at heval
        split at heval
        next vs st1 hargs =>
          cases heval
          obtain ⟨h1, hvs⟩ := ih (.argsT elems) env st _ _ hst rfl hargs
          exact ⟨h1, hvs⟩
        next => exact absurd heval (by simp)
      | propertyAccess oO prop =>
        simp only [evalCore] at heval
        split at heval
        next ov st1 ho =>
          obtain ⟨h1, hov⟩ := ih (.exprOT oO) env st _ _ hst rfl ho
          cases ov with
          | arr es =>
            dsimp only at heval
            cases heval
            exact ⟨h1, getArrayProperty_good es prop⟩
          | obj fs =>
            dsimp only at heval
            split at heval
            next v hv =>
              cases heval
              exact ⟨h1, lookupStore_good (by simpa [goodV] using hov) hv⟩
            next =>
              cases heval
              exact ⟨h1, rfl⟩
          | null => dsimp only at heval; cases heval; exact ⟨h1, rfl⟩
          | num x => dsimp only at heval; cases heval; exact ⟨h1, rfl⟩
          | str sx => dsimp only at heval; cases heval; exact ⟨h1, rfl⟩
          | bool b => dsimp only at heval; cases heval; exact ⟨h1, rfl⟩
          | closure ps body cenv => dsimp only at heval; cases heval; exact ⟨h1, rfl⟩
          | builtinV n => dsimp only at heval; cases heval; exact ⟨h1, rfl⟩
          | ret u => dsimp only at heval; cases heval; exact ⟨h1, rfl⟩
        next => exact absurd heval (by simp)
      | indexExpr lO iO =>
        simp only [evalCore] at heval
        split at heval
        next lv st1 hl =>
          obtain ⟨h1, hlv⟩ := ih (.exprOT lO) env st _ _ hst rfl hl
          cases lv with
          | null =>
            dsimp only at heval
            cases heval
            exact ⟨h1, rfl⟩
          | arr es =>
            dsimp only at heval
            split at heval
            next iv st2 hi =>
              obtain ⟨h2, hiv⟩ := ih (.exprOT iO) env st1 _ _ h1 rfl hi
              cases iv with
              | null => dsimp only at heval; cases heval; exact ⟨h2, rfl⟩
              | num x =>
                dsimp only at heval
                split at heval
                next =>
                  cases heval
                  exact ⟨h2, rfl⟩
                next =>
                  cases heval
                  exact ⟨h2, goodElems_getD es _ (by simpa [goodV] using hlv)⟩
              | str sx => dsimp only at heval; cases heval; exact ⟨h2, rfl⟩
              | bool b => dsimp only at heval; cases heval; exact ⟨h2, rfl⟩
              | obj fs => dsimp only at heval; cases heval; exact ⟨h2, rfl⟩
              | arr es2 => dsimp only at heval; cases heval; exact ⟨h2, rfl⟩
              | closure ps body cenv => dsimp only at heval; cases heval; exact ⟨h2, rfl⟩
              | builtinV n => dsimp only at heval; cases heval; exact ⟨h2, rfl⟩
              | ret u => dsimp only at heval; cases heval; exact ⟨h2, rfl⟩
            next => exact absurd heval (by simp)
          | obj fs =>
            dsimp only at heval
            split at heval
            next iv st2 hi =>
              obtain ⟨h2, hiv⟩ := ih (.exprOT iO) env st1 _ _ h1 rfl hi
              cases iv with
              | null => dsimp only at heval; cases heval; exact ⟨h2, rfl⟩
              | str key =>
                dsimp only at heval
                split at heval
                next v hv =>
                  cases heval
                  exact ⟨h2, lookupStore_good (by simpa [goodV] using hlv) hv⟩
                next =>
                  cases heval
                  exact ⟨h2, rfl⟩
              | num x => dsimp only at heval; cases heval; exact ⟨h2, rfl⟩
              | bool b => dsimp only at heval; cases heval; exact ⟨h2, rfl⟩
              | obj fs2 => dsimp only at heval; cases heval; exact ⟨h2, rfl⟩
              | arr es2 => dsimp only at heval; cases heval; exact ⟨h2, rfl⟩
              | closure ps body cenv => dsimp only at heval; cases heval; exact ⟨h2, rfl⟩
              | builtinV n => dsimp only at heval; cases heval; exact ⟨h2, rfl⟩
              | ret u => dsimp only at heval; cases heval; exact ⟨h2, rfl⟩
            next => exact absurd heval (by simp)
          | num x =>
            dsimp only at heval
            split at heval
            next iv st2 hi =>
              obtain ⟨h2, hiv⟩ := ih (.exprOT iO) env st1 _ _ h1 rfl hi
              cases iv <;> dsimp only at heval <;> cases heval <;> exact ⟨h2, rfl⟩
            next => exact absurd heval (by simp)
          | str sx =>
            dsimp only at heval
            split at heval
            next iv st2 hi =>
              obtain ⟨h2, hiv⟩ := ih (.exprOT iO) env st1 _ _ h1 rfl hi
              cases iv <;> dsimp only at heval <;> cases heval <;> exact ⟨h2, rfl⟩
            next => exact absurd heval (by simp)
          | bool b =>
            dsimp only at heval
            split at heval
            next iv st2 hi =>
              obtain ⟨h2, hiv⟩ := ih (.exprOT iO) env st1 _ _ h1 rfl hi
              cases iv <;> dsimp only at heval <;> cases heval <;> exact ⟨h2, rfl⟩
            next => exact absurd heval (by simp)
          | closure ps body cenv =>
            dsimp only at heval
            split at heval
            next iv st2 hi =>
              obtain ⟨h2, hiv⟩ := ih (.exprOT iO) env st1 _ _ h1 rfl hi
              cases iv <;> dsimp only at heval <;> cases heval <;> exact ⟨h2, rfl⟩
            next => exact absurd heval (by simp)
          | builtinV n =>
            dsimp only at heval
            split at heval
            next iv st2 hi =>
              obtain ⟨h2, hiv⟩ := ih (.exprOT iO) env st1 _ _ h1 rfl hi
              cases iv <;> dsimp only at heval <;> cases heval <;> exact ⟨h2, rfl⟩
            next => exact absurd heval (by simp)
          | ret u =>
            dsimp only at heval
            split at heval
            next iv st2 hi =>
              obtain ⟨h2, hiv⟩ := ih (.exprOT iO) env st1 _ _ h1 rfl hi
              cases iv <;> dsimp only at heval <;> cases heval <;> exact ⟨h2, rfl⟩
            next => exact absurd heval (by simp)
        next => exact absurd heval (by simp)
    | stmtT s =>
      cases s with
      | varStmt name vO =>
        cases vO with
        | none =>
          simp only [evalCore] at heval
          cases heval
          exact ⟨envSet_good hst rfl, rfl⟩
        | some e =>
          simp only [evalCore] at heval
          split at heval
          next v st1 hv =>
            cases heval
            obtain ⟨h1, hg⟩ := ih (.exprT e) env st _ _ hst rfl hv
            exact ⟨envSet_good h1 hg, goodOrRet_of_good hg⟩
          next => exact absurd heval (by simp)
      | returnStmt vO =>
        simp only [evalCore] at heval
        split at heval
        next v st1 hv =>
          cases heval
          obtain ⟨h1, hg⟩ := ih (.exprOT vO) env st _ _ hst rfl hv
          exact ⟨h1, by simpa [goodOrRet] using hg⟩
        next => exact absurd heval (by simp)
      | exprStmt eO =>
        simp only [evalCore] at heval
        obtain ⟨h1, h2⟩ := ih (.exprOT eO) env st res st' hst rfl heval
        refine ⟨h1, ?_⟩
        cases res with
        | val v => exact goodOrRet_of_good (by simpa [goodResFor] using h2)
        | vals vs => simp [goodResFor] at h2
      | blockStmt stmts =>
        simp only [evalCore] at heval
        obtain ⟨h1, h2⟩ := ih (.blockT stmts .null) _ _ res st' (allocEnv_good hst) rfl heval
        refine ⟨h1, ?_⟩
        cases res <;> simpa [goodResFor] using h2
      | ifStmt cond cons alt =>
        simp only [evalCore] at heval
        split at heval
        next c st1 hc =>
          obtain ⟨h1, _⟩ := ih (.exprOT cond) env st _ _ hst rfl hc
          split at heval
          next =>
            obtain ⟨h2, h3⟩ := ih (.stmtT (.blockStmt cons)) env st1 res st' h1 rfl heval
            refine ⟨h2, ?_⟩
            cases res <;> simpa [goodResFor] using h3
          next =>
            split at heval
            next s2 =>
              obtain ⟨h2, h3⟩ := ih (.stmtT s2) env st1 res st' h1 rfl heval
              refine ⟨h2, ?_⟩
              cases res <;> simpa [goodResFor] using h3
            next =>
              cases heval
              exact ⟨h1, rfl⟩
        next => exact absurd heval (by simp)
      | whileStmt cond body =>
        simp only [evalCore] at heval
        obtain ⟨h1, h2⟩ := ih (.whileT cond body .null) env st res st' hst rfl heval
        refine ⟨h1, ?_⟩
        cases res <;> simpa [goodResFor] using h2
    | progT stmts prev =>
      cases stmts with
      | nil =>
        simp only [evalCore] at heval
        cases heval
        exact ⟨hst, htask⟩
      | cons s rest =>
        simp only [evalCore] at heval
        split at heval
        next v st1 hs =>
          obtain ⟨h1, hv⟩ := ih (.stmtT s) env st _ _ hst rfl hs
          split at heval
          next u =>
            cases heval
            exact ⟨h1, by simpa [goodOrRet] using hv⟩
          next hnr =>
            have hgv : goodV v = true := goodV_of_goodOrRet_not_ret hv hnr
            obtain ⟨h2, h3⟩ := ih (.progT rest v) env st1 res st' h1 hgv heval
            refine ⟨h2, ?_⟩
            cases res <;> simpa [goodResFor] using h3
        next => exact absurd heval (by simp)
    | blockT stmts prev =>
      cases stmts with
      | nil =>
        simp only [evalCore] at heval
        cases heval
        exact ⟨hst, goodOrRet_of_good htask⟩
      | cons s rest =>
        simp only [evalCore] at heval
        split at heval
        next v st1 hs =>
          obtain ⟨h1, hv⟩ := ih (.stmtT s) env st _ _ hst rfl hs
          split at heval
          next u =>
            cases heval
            exact ⟨h1, by simpa [goodOrRet] using hv⟩
          next hnr =>
            have hgv : goodV v = true := goodV_of_goodOrRet_not_ret hv hnr
            obtain ⟨h2, h3⟩ := ih (.blockT rest v) env st1 res st' h1 hgv heval
            refine ⟨h2, ?_⟩
            cases res <;> simpa [goodResFor] using h3
        next => exact absurd heval (by simp)
    | whileT cond body prev =>
      simp only [evalCore] at heval
      split at heval
      next c st1 hc =>
        obtain ⟨h1, _⟩ := ih (.exprOT cond) env st _ _ hst rfl hc
        split at heval
        next =>
          cases heval
          exact ⟨h1, goodOrRet_of_good htask⟩
        next =>
          split at heval
          next v st2 hbody =>
            obtain ⟨h2, hv⟩ := ih (.stmtT (.blockStmt body)) env st1 _ _ h1 rfl hbody
            split at heval
            next u =>
              cases heval
              exact ⟨h2, by simpa [goodOrRet] using hv⟩
            next hnr =>
              have hgv : goodV v = true := goodV_of_goodOrRet_not_ret hv hnr
              obtain ⟨h3, h4⟩ := ih (.whileT cond body v) env st2 res st' h2 hgv heval
              refine ⟨h3, ?_⟩
              cases res <;> simpa [goodResFor] using h4
          next => exact absurd heval (by simp)
      next => exact absurd heval (by simp)
    | argsT es =>
      cases es with
      | nil =>
        simp only [evalCore] at heval
        cases heval
        exact ⟨hst, rfl⟩
      | cons eO rest =>
        simp only [evalCore] at heval
        split at heval
        next v st1 hv =>
          obtain ⟨h1, hgv⟩ := ih (.exprOT eO) env st _ _ hst rfl hv
          split at heval
          next vs st2 hrest =>
            cases heval
            obtain ⟨h2, hvs⟩ := ih (.argsT rest) env st1 _ _ h1 rfl hrest
            refine ⟨h2, ?_⟩
            simp only [goodResFor, goodElems, Bool.and_eq_true] at hvs ⊢
            exact ⟨hgv, hvs⟩
          next => exact absurd heval (by simp)
        next => exact absurd heval (by simp)
    | pairsT ps acc =>
      cases ps with
      | nil =>
        simp only [evalCore] at heval
        cases heval
        exact ⟨hst, htask⟩
      | cons kv rest =>
        obtain ⟨k, vO⟩ := kv
        simp only [evalCore] at heval
        split at heval
        next v st1 hv =>
          obtain ⟨h1, hgv⟩ := ih (.exprOT vO) env st _ _ hst rfl hv
          obtain ⟨h2, h3⟩ := ih (.pairsT rest (upsertAssoc acc k v)) env st1 res st' h1
            (upsertAssoc_good htask hgv) heval
          refine ⟨h2, ?_⟩
          cases res <;> simpa [goodResFor] using h3
        next => exact absurd heval (by simp)

theorem isRetV_eq_false_of_good {v : Value} (h : goodV v = true) : isRetV v = false := by
  cases v <;> simp_all [isRetV, goodV]

/-- C5: from a wrapper-free state (such as a fresh global environment), the
value handed back for the root Program node is never the internal return
wrapper — it is wrapper-free — and the final state stores no wrapper in any
environment; moreover every evaluated argument list (the values passed to a
native function) is wrapper-free.  The wrapper lives only between a return
statement and the enclosing block/program/call boundary that consumes it. -/
theorem c5_return_wrapper_never_escapes :
    (∀ fuel stmts env st v st',
      goodState st = true →
      evalProgram fuel stmts env st = some (v, st') →
      goodV v = true ∧ isRetV v = false ∧ goodState st' = true) ∧
    (∀ fuel args env st vs st',
      goodState st = true →
      evalCore fuel (.argsT args) env st = some (.vals vs, st') →
      goodElems vs = true) := by
  constructor
  · intro fuel stmts env st v st' hst h
    unfold evalProgram at h
    split at h
    next v2 st2 hev =>
      cases h
      obtain ⟨h1, h2⟩ := evalCore_good fuel (.progT stmts .null) env st _ _ hst rfl hev
      exact ⟨h2, isRetV_eq_false_of_good h2, h1⟩
    next => exact absurd h (by simp)
  · intro fuel args env st vs st' hst h
    exact (evalCore_good fuel (.argsT args) env st _ _ hst rfl h).2

/-- C5 witness: the program `return 7;` in the fresh global environment
yields the plain number 7, a wrapper-free value, and leaves the state
wrapper-free. -/
theorem c5_return_wrapper_never_escapes_witness :
    goodV (Value.num (Q.ofInt 7)) = true ∧
    isRetV (Value.num (Q.ofInt 7)) = false ∧
    goodState initialState = true :=
  c5_return_wrapper_never_escapes.1 10 [.returnStmt (some (.numberLit (Q.ofInt 7)))]
    0 initialState (.num (Q.ofInt 7)) initialState rfl rfl

/-!  C6.  Assignment and the scope chain.  `chainFind` names the nearest
enclosing environment that binds a name; the theorem shows `Update` mutates
exactly there, or defines in the current scope when no binding exists
anywhere in the chain. -/

/-- Walk the `outer` chain from environment `i` outward; the first
environment whose own store binds `name`, if any. -/
def chainFindAux (st : State) : Nat → Nat → String → Option Nat
  | 0, _, _ => none
  | fuel+1, i, name =>
    match st.envs.get? i with
    | none => none
    | some e =>
      if (lookupStore e.store name).isSome then some i
      else
        match e.outer with
        | some j => chainFindAux st fuel j name
        | none => none

/-- `chainFindAux` at ample fuel. -/
def chainFind (st : State) (i : Nat) (name : String) : Option Nat :=
  chainFindAux st (st.envs.length + 1) i name

/-- Heap well-formedness from index `k` on: each record's parent index is
below the record's own index. -/
def wfFrom : Nat → List EnvRec → Bool
  | _, [] => true
  | i, e :: rest =>
    (match e.outer with
     | some j => decide (j < i)
     | none => true) && wfFrom (i+1) rest

/-- Well-formed heap: every environment's parent has a smaller index.  The
interpreter only ever creates a child of an existing environment, so every
state it builds is well-formed. -/
def wfEnvs (st : State) : Bool := wfFrom 0 st.envs

theorem wfFrom_get :
    ∀ (l : List EnvRec) (k n : Nat) (e : EnvRec) (j : Nat),
      wfFrom k l = true → l.get? n = some e → e.outer = some j → j < k + n := by
  intro l
  induction l with
  | nil => intro k n e j _ h; simp at h
  | cons hd tl ih =>
    intro k n e j hwf hget houter
    simp only [wfFrom, Bool.and_eq_true] at hwf
    cases n with
    | zero =>
      simp only [List.get?] at hget
      cases hget
      have := hwf.1
      rw [houter] at this
      simpa using this
    | succ m =>
      simp only [List.get?] at hget
      have := ih (k+1) m e j hwf.2 hget houter
      omega

theorem wf_outer_lt {st : State} {i : Nat} {e : EnvRec} {j : Nat}
    (hwf : wfEnvs st = true) (he : st.envs.get? i = some e)
    (hj : e.outer = some j) : j < i := by
  have := wfFrom_get st.envs 0 i e j hwf he hj
  omega

theorem envGetAux_stable {st : State} (hwf : wfEnvs st = true) (name : String) :
    ∀ i, ∀ fuel, i < fuel →
      envGetAux st fuel i name = envGetAux st (i+1) i name := by
  intro i
  induction i using Nat.strong_induction_on with
  | _ i ih =>
    intro fuel hfuel
    cases fuel with
    | zero => omega
    | succ f =>
      simp only [envGetAux]
      cases he : st.envs.get? i with
      | none => rfl
      | some e =>
        dsimp only
        cases hls : lookupStore e.store name with
        | some w => rfl
        | none =>
          dsimp only
          cases houter : e.outer with
          | none => rfl
          | some j =>
            dsimp only
            have hji : j < i := wf_outer_lt hwf he houter
            rw [ih j hji f (by omega), ih j hji i hji]

theorem chainFindAux_stable {st : State} (hwf : wfEnvs st = true) (name : String) :
    ∀ i, ∀ fuel, i < fuel →
      chainFindAux st fuel i name = chainFindAux st (i+1) i name := by
  intro i
  induction i using Nat.strong_induction_on with
  | _ i ih =>
    intro fuel hfuel
    cases fuel with
    | zero => omega
    | succ f =>
      simp only [chainFindAux]
      cases he : st.envs.get? i with
      | none => rfl
      | some e =>
        dsimp only
        by_cases hls : (lookupStore e.store name).isSome
        · simp [hls]
        · simp only [hls, if_false, Bool.false_eq_true]
          cases houter : e.outer with
          | none => rfl
          | some j =>
            dsimp only
            have hji : j < i := wf_outer_lt hwf he houter
            rw [ih j hji f (by omega), ih j hji i hji]

theorem envUpdateAux_stable {st : State} (hwf : wfEnvs st = true)
    (name : String) (v : Value) :
    ∀ i, ∀ fuel, i < fuel →
      envUpdateAux st fuel i name v = envUpdateAux st (i+1) i name v := by
  intro i
  induction i using Nat.strong_induction_on with
  | _ i ih =>
    intro fuel hfuel
    cases fuel with
    | zero => omega
    | succ f =>
      simp only [envUpdateAux]
      cases he : st.envs.get? i with
      | none => rfl
      | some e =>
        dsimp only
        by_cases hls : (lookupStore e.store name).isSome
        · simp [hls]
        · simp only [hls, if_false, Bool.false_eq_true]
          cases houter : e.outer with
          | none => rfl
          | some j =>
            dsimp only
            have hji : j < i := wf_outer_lt hwf he houter
            by_cases hg : (envGet st j name).isSome
            · simp only [hg, if_true]
              rw [ih j hji f (by omega), ih j hji i hji]
            · simp [hg]

theorem envGetAux_isSome_eq_chainFindAux_isSome (st : State) (name : String) :
    ∀ fuel i, (envGetAux st fuel i name).isSome = (chainFindAux st fuel i name).isSome := by
  intro fuel
  induction fuel with
  | zero => intro i; rfl
  | succ f ih =>
    intro i
    simp only [envGetAux, chainFindAux]
    cases he : st.envs.get? i with
    | none => rfl
    | some e =>
      dsimp only
      cases hls : lookupStore e.store name with
      | some w => simp [hls]
      | none =>
        simp only [hls, Option.isSome_none, Bool.false_eq_true, if_false]
        cases houter : e.outer with
        | none => rfl
        | some j =>
          dsimp only
          exact ih j

/-- The central `Update` characterization: on a well-formed heap, `Update`
writes into the nearest enclosing environment that binds the name
(`chainFind`), and into the current environment when no environment in the
chain binds it. -/
theorem envUpdate_eq_set_at_chainFind {st : State} (hwf : wfEnvs st = true)
    (name : String) (v : Value) :
    ∀ i, i < st.envs.length →
      envUpdate st i name v = envSet st ((chainFind st i name).getD i) name v := by
  intro i
  induction i using Nat.strong_induction_on with
  | _ i ih =>
    intro hlen
    unfold envUpdate chainFind
    rw [envUpdateAux_stable hwf name v i (st.envs.length + 1) (by omega),
        chainFindAux_stable hwf name i (st.envs.length + 1) (by omega)]
    simp only [envUpdateAux, chainFindAux]
    cases he : st.envs.get? i with
    | none =>
      exfalso
      have hle := List.get?_eq_none.mp he
      omega
    | some e =>
      dsimp only
      by_cases hls : (lookupStore e.store name).isSome
      · simp [hls]
      · simp only [hls, if_false, Bool.false_eq_true]
        cases houter : e.outer with
        | none => simp
        | some j =>
          dsimp only
          have hji : j < i := wf_outer_lt hwf he houter
          have hjlen : j < st.envs.length := by omega
          have hR : chainFindAux st i j name = chainFind st j name := by
            unfold chainFind
            rw [chainFindAux_stable hwf name j i hji,
                chainFindAux_stable hwf name j (st.envs.length + 1) (by omega)]
          by_cases hg : (envGet st j name).isSome
          · simp only [hg, if_true]
            have hL : envUpdateAux st i j name v = envUpdate st j name v := by
              unfold envUpdate
              rw [envUpdateAux_stable hwf name v j i hji,
                  envUpdateAux_stable hwf name v j (st.envs.length + 1) (by omega)]
            rw [hL, hR]
            have hsome : (chainFind st j name).isSome := by
              unfold chainFind
              rw [← envGetAux_isSome_eq_chainFindAux_isSome st name (st.envs.length + 1) j]
              exact hg
            obtain ⟨jj, hjj⟩ := Option.isSome_iff_exists.mp hsome
            rw [hjj]
            have hind := ih j hji hjlen
            rw [hjj] at hind
            simpa using hind
          · have hnone : chainFind st j name = none := by
              cases hcf : chainFind st j name with
              | none => rfl
              | some jj =>
                exfalso
                apply hg
                unfold envGet
                rw [envGetAux_isSome_eq_chainFindAux_isSome st name (st.envs.length + 1) j]
                unfold chainFind at hcf
                simp [hcf]
            simp only [hg, if_false, Bool.false_eq_true]
            rw [hR, hnone]
            rfl

/-- C6: assignment resolves through `Environment.Update`, which on any
well-formed heap mutates the binding in the nearest enclosing scope that
has one and otherwise creates the name in the current scope; a binding
exists in the chain exactly when `Get` finds one; the assignment expression
evaluates its value and hands it to `Update`; and the quoted program shows
a block mutating the outer binding rather than a copy. -/
theorem c6_assignment_mutates_nearest_enclosing_scope :
    (∀ st i name v, wfEnvs st = true → i < st.envs.length →
      envUpdate st i name v = envSet st ((chainFind st i name).getD i) name v) ∧
    (∀ st i name, (chainFind st i name).isSome = (envGet st i name).isSome) ∧
    (∀ fuel name vO env st v st1,
      evalCore fuel (.exprOT vO) env st = some (.val v, st1) →
      evalCore (fuel+1) (.exprT (.assignExpr name vO)) env st =
        some (.val v, envUpdate st1 env name v)) ∧
    runSource "var x = 5; \x7b x = 10; \x7d x;" = some (.num (Q.ofInt 10)) := by
  refine ⟨?_, ?_, ?_, ?_⟩
  · intro st i name v hwf hlen
    exact envUpdate_eq_set_at_chainFind hwf name v i hlen
  · intro st i name
    unfold chainFind envGet
    exact (envGetAux_isSome_eq_chainFindAux_isSome st name (st.envs.length + 1) i).symm
  · intro fuel name vO env st v st1 h
    simp only [evalCore, h]
  · rfl

/-- C6 witness: in a two-environment heap (a global binding `x` and an
empty child scope), updating `x` from the child writes into the global
store; the symbolic description and the computed update agree. -/
theorem c6_assignment_mutates_nearest_enclosing_scope_witness :
    envUpdate { envs := [{ store := [("x", Value.num (Q.ofInt 5))], outer := none },
        { store := [], outer := some 0 }] } 1 "x" (Value.num (Q.ofInt 10)) =
      envSet { envs := [{ store := [("x", Value.num (Q.ofInt 5))], outer := none },
        { store := [], outer := some 0 }] }
        ((chainFind { envs := [{ store := [("x", Value.num (Q.ofInt 5))], outer := none },
          { store := [], outer := some 0 }] } 1 "x").getD 1) "x" (Value.num (Q.ofInt 10)) ∧
    evalCore 3 (.exprT (.assignExpr "x" (some (.numberLit (Q.ofInt 10))))) 0 initialState =
      some (.val (.num (Q.ofInt 10)),
        envUpdate initialState 0 "x" (.num (Q.ofInt 10))) :=
  ⟨c6_assignment_mutates_nearest_enclosing_scope.1
      { envs := [{ store := [("x", Value.num (Q.ofInt 5))], outer := none },
        { store := [], outer := some 0 }] } 1 "x" (Value.num (Q.ofInt 10)) rfl (by decide),
   c6_assignment_mutates_nearest_enclosing_scope.2.2.1 2 "x"
      (some (.numberLit (Q.ofInt 10))) 0 initialState (.num (Q.ofInt 10)) initialState rfl⟩

end GoScript
